import Mathlib

/-!
Verification development for the UCX configuration parser
(`src/ucs/config/parser.c`).  The C code is shallowly embedded: machine
values become `Nat`, C strings become `String`, the opts structure (a raw
memory block addressed by byte offsets) becomes a total map `Nat → V`, and
each parser vtable entry becomes a Lean function.  Fallible C functions
return an `UcsStatus` together with the updated store.
-/

namespace UcxConfig


/-- Embeds `ucs_status_t` (only the codes the config parser core uses). -/
inductive UcsStatus where
  | ok
  | noElem
  | invalidParam
  | noMemory
  | ioError
deriving DecidableEq, Repr

/-- ASCII `tolower`, as used by `strcasecmp`. -/
def asciiToLower (c : Char) : Char :=
  if 65 ≤ c.toNat ∧ c.toNat ≤ 90 then Char.ofNat (c.toNat + 32) else c

/-- Embeds `strcasecmp(a, b) == 0`: case-insensitive string equality. -/
def strCaseEq (a b : String) : Bool :=
  a.data.map asciiToLower == b.data.map asciiToLower

/-- Split a character list at every occurrence of the delimiter. -/
def splitCharsGo (delim : Char) : List Char → List Char → List (List Char)
  | [], acc => [acc.reverse]
  | c :: cs, acc =>
    if c == delim then acc.reverse :: splitCharsGo delim cs []
    else splitCharsGo delim cs (c :: acc)

/-- Embeds `strtok_r` splitting on a single delimiter: maximal non-empty
chunks between delimiter characters (empty tokens are skipped). -/
def strtokSplit (delim : Char) (s : String) : List String :=
  ((splitCharsGo delim s.data []).map (fun cs => (⟨cs⟩ : String))).filter (· ≠ "")

/-- A decimal digit character (`isdigit`). -/
def isDigitChar (c : Char) : Bool :=
  48 ≤ c.toNat && c.toNat ≤ 57

/-- Whitespace skipped by `sscanf` conversions (`isspace`, ASCII part). -/
def isSpaceChar (c : Char) : Bool :=
  c.toNat == 32 || c.toNat == 9 || c.toNat == 10 || c.toNat == 13

/-- Numeric value of a decimal digit character. -/
def charDigitVal (c : Char) : Nat := c.toNat - 48

/-- Value of a list of decimal digit characters (most significant first). -/
def digitsVal (cs : List Char) : Nat :=
  cs.foldl (fun a c => a * 10 + charDigitVal c) 0

/-- `UINT_MAX` for the 32-bit `unsigned int` used by the uint parser. -/
def UINT_MAX : Nat := 4294967295

/-- Embeds the `sscanf(buf, "%u", ...)` call: skip leading whitespace, read a
maximal non-empty run of decimal digits (failing when there is none), ignore
any trailing text; the stored value is reduced modulo `2^32`. -/
def sscanf_u (s : String) : Option Nat :=
  let cs := s.data.dropWhile isSpaceChar
  let ds := cs.takeWhile isDigitChar
  if ds.isEmpty then none else some (digitsVal ds % 2 ^ 32)

/-- Decimal digits of `n`, most significant first (the rendering used by
`snprintf(buf, max, "%u", value)`). -/
def decDigits (n : Nat) : List Nat :=
  if n < 10 then [n] else decDigits (n / 10) ++ [n % 10]
termination_by n
decreasing_by
  exact Nat.div_lt_self (by omega) (by omega)

/-- Character for a decimal digit. -/
def digitChar (d : Nat) : Char := Char.ofNat (48 + d)

/-- Decimal string of `n`. -/
def decString (n : Nat) : String := ⟨(decDigits n).map digitChar⟩

/-- Embeds `ucs_config_sscanf_uint`: the literal `inf` (case-insensitive)
parses to `UINT_MAX`; anything else goes through `sscanf("%u")`. -/
def ucs_config_sscanf_uint (buf : String) : Option Nat :=
  if strCaseEq buf "inf" then some UINT_MAX else sscanf_u buf

/-- Embeds `ucs_config_sprintf_uint`: `UINT_MAX` prints as `inf`, any other
value prints in decimal. -/
def ucs_config_sprintf_uint (value : Nat) : String :=
  if value = UINT_MAX then "inf" else decString value

/-- Embeds the `sscanf(buf, "%lf", ...)` call made by
`ucs_config_sscanf_double`: skip leading whitespace, an optional sign, then
decimal digits with an optional fraction part, at least one digit in total;
`%lf` ignores trailing text, and the exponent form does not occur in this
development.  The value is kept as an exact rational; every property proved
below involves only values whose behaviour is insensitive to binary-double
rounding. -/
def ucs_config_sscanf_double (buf : String) : Option ℚ :=
  let cs := buf.data.dropWhile isSpaceChar
  let sgn : ℚ := if cs.head? = some '-' then -1 else 1
  let cs1 := if cs.head? = some '-' || cs.head? = some '+' then cs.drop 1 else cs
  let ds := cs1.takeWhile isDigitChar
  let rest := cs1.dropWhile isDigitChar
  let fs :=
    if rest.head? = some '.' then (rest.drop 1).takeWhile isDigitChar else []
  if ds.isEmpty && fs.isEmpty then none
  else some (sgn * ((digitsVal ds : ℚ) + (digitsVal fs : ℚ) / 10 ^ fs.length))

/-- Three-digit zero-padded decimal rendering of a natural number below
1000, the fraction part written by `%.3f`. -/
def fracPad3 (n : Nat) : String :=
  if n < 10 then "00" ++ decString n
  else if n < 100 then "0" ++ decString n
  else decString n

/-- Embeds `ucs_config_sprintf_double`, i.e. `snprintf(buf, max, "%.3f",
value)`: the value rounded to the nearest thousandth (the C code rounds the
binary double; on every value appearing below the rounding is unambiguous,
so the exact-rational rendering coincides with it), written with exactly
three fraction digits. -/
def ucs_config_sprintf_double (q : ℚ) : String :=
  (if q < 0 then "-" else "") ++
    decString ((⌊(if q < 0 then -q else q) * 1000 + 1/2⌋).toNat / 1000) ++
    "." ++ fracPad3 ((⌊(if q < 0 then -q else q) * 1000 + 1/2⌋).toNat % 1000)

/-- Modelled from the spec: the `UCS_CONFIG_DBL_AUTO` marker stored for
`auto` (its definition lives in a header outside src/); any value distinct
from the ordinary positive values serves the proofs below. -/
def UCS_CONFIG_DBL_AUTO : ℚ := -1

/-- Embeds `ucs_config_sscanf_pos_double`: the literal `auto`
(case-insensitive) parses to the auto marker; anything else goes through
`ucs_config_sscanf_double` and the result must be strictly positive. -/
def ucs_config_sscanf_pos_double (buf : String) : Option ℚ :=
  if strCaseEq buf "auto" then some UCS_CONFIG_DBL_AUTO
  else match ucs_config_sscanf_double buf with
    | some v => if 0 < v then some v else none
    | none => none

/-- Embeds `ucs_config_sprintf_pos_double`: the auto marker prints as
`auto`; any other value goes through `ucs_config_sprintf_double`. -/
def ucs_config_sprintf_pos_double (q : ℚ) : String :=
  if q = UCS_CONFIG_DBL_AUTO then "auto" else ucs_config_sprintf_double q

/-- Value of `UCS_NO` (asserted to be 0 in the source). -/
def UCS_NO : Nat := 0

/-- Value of `UCS_YES` (asserted to be 1 in the source). -/
def UCS_YES : Nat := 1

/-- Modelled from the spec: the `UCS_TRY` member of the ternary enum, a
distinct third value (the enum declaration lives in a header outside src/). -/
def UCS_TRY : Nat := 2

/-- Modelled from the spec: the `UCS_AUTO` member of the ternary-auto enum, a
distinct fourth value (the enum declaration lives in a header outside src/). -/
def UCS_AUTO : Nat := 3

/-- Embeds `ucs_config_sscanf_bool`: `y`/`yes` (case-insensitive) and the
exact strings `on`/`1` give 1; `n`/`no` (case-insensitive) and the exact
strings `off`/`0` give 0; everything else fails. -/
def ucs_config_sscanf_bool (buf : String) : Option Nat :=
  if strCaseEq buf "y" || strCaseEq buf "yes" || buf = "on" || buf = "1" then
    some 1
  else if strCaseEq buf "n" || strCaseEq buf "no" || buf = "off" || buf = "0" then
    some 0
  else
    none

/-- Embeds `ucs_config_sprintf_bool`: a non-zero value prints as `y`,
zero prints as `n`. -/
def ucs_config_sprintf_bool (value : Nat) : String :=
  if value ≠ 0 then "y" else "n"

/-- Embeds `ucs_config_sscanf_ternary`: `try`/`maybe` (case-insensitive)
give `UCS_TRY`, otherwise fall through to the bool parser. -/
def ucs_config_sscanf_ternary (buf : String) : Option Nat :=
  if strCaseEq buf "try" || strCaseEq buf "maybe" then some UCS_TRY
  else ucs_config_sscanf_bool buf

/-- Embeds `ucs_config_sscanf_ternary_auto`: `auto` (case-insensitive)
gives `UCS_AUTO`, otherwise fall through to the ternary parser. -/
def ucs_config_sscanf_ternary_auto (buf : String) : Option Nat :=
  if strCaseEq buf "auto" then some UCS_AUTO
  else ucs_config_sscanf_ternary buf

/-- Embeds `ucs_config_sprintf_ternary_auto`: `UCS_AUTO` prints as `auto`,
`UCS_TRY` prints as `try`, anything else goes through the bool printer. -/
def ucs_config_sprintf_ternary_auto (value : Nat) : String :=
  if value = UCS_AUTO then "auto"
  else if value = UCS_TRY then "try"
  else ucs_config_sprintf_bool value

/-- Embeds the scan loop of `ucs_config_parser_get_sub_prefix`:
`while (len > 0 && env_prefix[len-1] != '_') len -= 1;` returning the final
`len`. -/
def subPfxScan (cs : List Char) : Nat → Nat
  | 0 => 0
  | l + 1 => if cs.getD l ' ' == '_' then l + 1 else subPfxScan cs l

/-- Embeds `ucs_config_parser_get_sub_prefix`: a prefix shorter than two
characters is `UCS_ERR_INVALID_PARAM`; otherwise scan from position
`len - 2` leftwards to the nearest `_` and return the suffix after it, or
no sub-prefix when the scan reaches position 0. -/
def ucs_config_parser_get_sub_pfx (envPfx : String) : UcsStatus × Option String :=
  let cs := envPfx.data
  if cs.length < 2 then (UcsStatus.invalidParam, none)
  else
    let l := subPfxScan cs (cs.length - 2)
    (UcsStatus.ok, if l > 0 then some ⟨cs.drop l⟩ else none)

/-- Embeds the token loop of `ucs_config_sscanf_array`: parse each token with
the element parser, stopping (successfully) as soon as `maxA` elements have
been stored; any element parse failure fails the whole read.  Returns the
parsed elements together with the final count. -/
def sscanfArrayGo {V : Type} (readE : String → Option V) (maxA : Nat) :
    List String → Nat → List V → Option (List V × Nat)
  | [], i, acc => some (acc.reverse, i)
  | t :: ts, i, acc =>
    match readE t with
    | none => none
    | some v =>
      if i + 1 ≥ maxA then some ((v :: acc).reverse, i + 1)
      else sscanfArrayGo readE maxA ts (i + 1) (v :: acc)

/-- Embeds `ucs_config_sscanf_array`: split the input on `,` with `strtok_r`
and run the element loop.  `maxA` stands for the compile-time constant
`UCS_CONFIG_ARRAY_MAX` (its numeric value is declared in a header outside
src/, so the bound is kept as a parameter). -/
def ucs_config_sscanf_array {V : Type} (readE : String → Option V) (maxA : Nat)
    (buf : String) : Option (List V × Nat) :=
  sscanfArrayGo readE maxA (strtokSplit ',' buf) 0 []

/-- Embeds `ucs_config_parser_is_default`: the variable name
`env_prefix || prefix || name` is composed into `var_name`, yet the file-map
lookup `kh_get(ucs_config_map, &ucs_config_file_vars, name)` is keyed by the
bare `name`; only `getenv` uses `var_name`. -/
def ucs_config_parser_is_default (env fileVars : String → Option String)
    (envPfx pfx name : String) : Bool :=
  let var_name := envPfx ++ pfx ++ name
  (fileVars name).isNone && (env var_name).isNone

/-- Embeds the `COMMENT_DEFAULT` decision in `ucs_config_parser_print_field`:
the printed line is prefixed with `# ` exactly when the flag is set and
`ucs_config_parser_is_default` holds. -/
def printFieldCommentPfx (commentDefault : Bool) (env fileVars : String → Option String)
    (envPfx pfx name : String) : String :=
  if commentDefault && ucs_config_parser_is_default env fileVars envPfx pfx name then "# "
  else ""

/-- Embeds `fnmatch(pattern, string, 0)` (an external libc collaborator):
shell-glob matching with `*` and `?`.  The `fuel` argument only drives the
recursion; every recursive call shrinks `pattern.length + string.length`, so
the wrapper below always supplies enough. -/
def fnmatchFuel : Nat → List Char → List Char → Bool
  | 0, _, _ => false
  | _ + 1, [], [] => true
  | _ + 1, [], _ :: _ => false
  | fuel + 1, '*' :: ps, s =>
    fnmatchFuel fuel ps s ||
      (match s with
       | [] => false
       | _ :: s1 => fnmatchFuel fuel ('*' :: ps) s1)
  | fuel + 1, '?' :: ps, _ :: s1 => fnmatchFuel fuel ps s1
  | _ + 1, '?' :: _, [] => false
  | fuel + 1, c :: ps, d :: s1 => c == d && fnmatchFuel fuel ps s1
  | _ + 1, _ :: _, [] => false

/-- `fnmatch(pattern, s, 0) == 0`, i.e. the pattern matches the string. -/
def fnmatch (pattern s : String) : Bool :=
  fnmatchFuel (pattern.data.length + s.data.length + 1) pattern.data s.data

/-- Embeds `ucs_config_prefix_name_match`: the candidate name is
`prefix || name` (just `name` when the prefix is NULL), matched against the
user-supplied pattern with `fnmatch`. -/
def ucs_config_pfx_name_match (tp : Option String) (name pattern : String) : Bool :=
  fnmatch pattern (tp.getD "" ++ name)

mutual

/-- Embeds `ucs_config_parser_vtable`-relevant parser data of one field:
either a scalar parser (its `read` and `write` entries) or the table parser
(`ucs_config_sscanf_table`), whose argument is the sub-field list. -/
inductive CParser (V : Type) : Type where
  | scalar (read : String → Option V) (write : V → Option String) : CParser V
  | table (sub : List (CField V)) : CParser V

/-- Embeds `ucs_config_field_t`: name, textual default (`NULL` for aliases),
byte offset into the owning struct, and the parser. -/
inductive CField (V : Type) : Type where
  | mk (name : String) (dflValue : Option String) (offset : Nat)
      (parser : CParser V) : CField V

end

/-- Field name accessor. -/
def CField.name {V : Type} : CField V → String
  | .mk n _ _ _ => n

/-- Field default-text accessor (`dfl_value`). -/
def CField.dflValue {V : Type} : CField V → Option String
  | .mk _ d _ _ => d

/-- Field offset accessor. -/
def CField.offset {V : Type} : CField V → Nat
  | .mk _ _ o _ => o

/-- Field parser accessor. -/
def CField.parser {V : Type} : CField V → CParser V
  | .mk _ _ _ p => p

/-- Sub-field list of a table field (`parser.arg`), empty otherwise. -/
def CField.subFields {V : Type} : CField V → List (CField V)
  | .mk _ _ _ (.table sub) => sub
  | .mk _ _ _ (.scalar _ _) => []

/-- The scalar `read` entry of a field's parser vtable. -/
def CField.readFn {V : Type} : CField V → String → Option V
  | .mk _ _ _ (.scalar r _) => r
  | .mk _ _ _ (.table _) => fun _ => none

/-- The scalar `write` entry of a field's parser vtable. -/
def CField.writeFn {V : Type} : CField V → V → Option String
  | .mk _ _ _ (.scalar _ w) => w
  | .mk _ _ _ (.table _) => fun _ => none

/-- Modelled from the spec: the sentinel offset
`UCS_CONFIG_DEPRECATED_FIELD_OFFSET` marking deprecated fields; the macro is
declared in a header outside src/ and expands to `(size_t)-1`. -/
def UCS_CONFIG_DEPRECATED_FIELD_OFFSET : Nat := 2 ^ 64 - 1

/-- Embeds `ucs_config_is_deprecated_field`: `offset` equals the marker. -/
def ucs_config_is_deprecated_field {V : Type} (f : CField V) : Bool :=
  f.offset == UCS_CONFIG_DEPRECATED_FIELD_OFFSET

/-- Embeds `ucs_config_is_alias_field`: `dfl_value == NULL`. -/
def ucs_config_is_alias_field {V : Type} (f : CField V) : Bool :=
  f.dflValue.isNone

/-- Embeds `ucs_config_is_table_field`: `parser.read == ucs_config_sscanf_table`. -/
def ucs_config_is_table_field {V : Type} (f : CField V) : Bool :=
  match f.parser with
  | .table _ => true
  | .scalar _ _ => false

/-- The opts structure: a raw memory block, addressed by byte offset. -/
def Store (V : Type) := Nat → V

/-- Write one slot of the store. -/
def updStore {V : Type} (st : Store V) (a : Nat) (v : V) : Store V :=
  fun x => if x = a then v else st x

/-- Embeds `ucs_config_parser_release_field` / `ucs_config_parser_release_opts`:
releasing frees heap memory owned by slots, which has no effect at the level
of slot values; the model keeps the store unchanged.  `fill_opts` records the
fact that `release_opts` was invoked in its result. -/
def ucs_config_parser_release_opts {V : Type} (store : Store V)
    (_fields : List (CField V)) : Store V :=
  store

mutual

/-- Embeds `ucs_config_parser_parse_field`: run the field's `read` on the
value and report `UCS_ERR_INVALID_PARAM` when it fails; for a table field the
`read` entry is `ucs_config_sscanf_table`.  A `none` value stands for the
NULL pointer the C code would pass when parsing an alias's default. -/
def ucs_config_parser_parse_field {V : Type} (f : CField V) (value : Option String)
    (store : Store V) (addr : Nat) : UcsStatus × Store V :=
  match f with
  | CField.mk _ _ _ fparser =>
    match fparser with
    | CParser.scalar readF _ =>
      match value with
      | none => (UcsStatus.invalidParam, store)
      | some s =>
        match readF s with
        | some v => (UcsStatus.ok, updStore store addr v)
        | none => (UcsStatus.invalidParam, store)
    | CParser.table sub =>
      match value with
      | none => (UcsStatus.invalidParam, store)
      | some s =>
        match ucs_config_sscanf_table sub s store addr with
        | (true, st) => (UcsStatus.ok, st)
        | (false, st) => (UcsStatus.invalidParam, st)
termination_by (sizeOf f, 3, 0)

/-- Embeds `ucs_config_sscanf_table`: split the input on `;` with `strtok_r`
and process each token. -/
def ucs_config_sscanf_table {V : Type} (sub : List (CField V)) (buf : String)
    (store : Store V) (base : Nat) : Bool × Store V :=
  sscanfTableGo sub (strtokSplit ';' buf) store base
termination_by (sizeOf sub, 5, 0)

/-- The token loop of `ucs_config_sscanf_table`: each token splits on `=`
into `(name, value)` and is forwarded to the resolver with
`table_prefix = NULL`, `recurse = 1`; any resolver failure fails the read. -/
def sscanfTableGo {V : Type} (sub : List (CField V)) (tokens : List String)
    (store : Store V) (base : Nat) : Bool × Store V :=
  match tokens with
  | [] => (true, store)
  | t :: ts =>
    match strtokSplit '=' t with
    | [] => (false, store)
    | [_] => (false, store)
    | n :: v :: _ =>
      match ucs_config_parser_set_value_internal store base sub n v none true with
      | (UcsStatus.ok, st) => sscanfTableGo sub ts st base
      | (_, st) => (false, st)
termination_by (sizeOf sub, 4, tokens.length)

/-- Embeds `ucs_config_parser_set_value_internal`: run the field loop and
translate its outcome (`UCS_ERR_NO_ELEM` when no field matched). -/
def ucs_config_parser_set_value_internal {V : Type} (store : Store V) (base : Nat)
    (fields : List (CField V)) (name value : String) (tp : Option String)
    (recurse : Bool) : UcsStatus × Store V :=
  match svLoop store base fields name value tp recurse 0 with
  | (some s, st, _) => (s, st)
  | (none, st, count) =>
    ((if count = 0 then UcsStatus.noElem else UcsStatus.ok), st)
termination_by (sizeOf fields, 1, 0)

/-- The field loop of `ucs_config_parser_set_value_internal`.  The first
result component is `some s` when the loop returned early with status `s`,
and `none` when it ran to completion with the returned match count. -/
def svLoop {V : Type} (store : Store V) (base : Nat) (fields : List (CField V))
    (name value : String) (tp : Option String) (recurse : Bool) (count : Nat) :
    Option UcsStatus × Store V × Nat :=
  match fields with
  | [] => (none, store, count)
  | f :: rest =>
    match f with
    | CField.mk fname fdfl foff fparser =>
      match fparser with
      | CParser.table sub =>
        if recurse then
          match ucs_config_parser_set_value_internal store (base + foff) sub
              name value (some fname) true with
          | (UcsStatus.ok, st) =>
            svTableSecond st base (base + foff) sub rest name value tp recurse
              (count + 1)
          | (UcsStatus.noElem, st) =>
            svTableSecond st base (base + foff) sub rest name value tp recurse count
          | (s, st) => (some s, st, count)
        else
          svTableSecond store base (base + foff) sub rest name value tp recurse count
      | CParser.scalar readF writeF =>
        if ucs_config_pfx_name_match tp fname name then
          if ucs_config_is_deprecated_field
              (CField.mk fname fdfl foff (CParser.scalar readF writeF)) then
            (some UcsStatus.noElem, store, count)
          else
            let addr := base + foff
            let backup := (writeF (store addr)).getD ""
            match ucs_config_parser_parse_field
                (CField.mk fname fdfl foff (CParser.scalar readF writeF))
                (some value) store addr with
            | (UcsStatus.ok, st) =>
              svLoop st base rest name value tp recurse (count + 1)
            | (s, _) =>
              (some s,
               (ucs_config_parser_parse_field
                  (CField.mk fname fdfl foff (CParser.scalar readF writeF))
                  (some backup) store addr).2,
               count)
        else
          svLoop store base rest name value tp recurse count
termination_by (sizeOf fields, 0, 0)

/-- The second, "override with my prefix" descent into a sub-table (executed
when `table_prefix != NULL`), followed by the continuation of the field
loop. -/
def svTableSecond {V : Type} (store : Store V) (base addr : Nat)
    (sub rest : List (CField V)) (name value : String) (tp : Option String)
    (recurse : Bool) (count : Nat) : Option UcsStatus × Store V × Nat :=
  match tp with
  | none => svLoop store base rest name value tp recurse count
  | some t =>
    match ucs_config_parser_set_value_internal store addr sub name value
        (some t) false with
    | (UcsStatus.ok, st) => svLoop st base rest name value tp recurse (count + 1)
    | (UcsStatus.noElem, st) => svLoop st base rest name value tp recurse count
    | (s, st) => (some s, st, count)
termination_by (sizeOf sub + sizeOf rest + 1, 2, 0)

end

/-- Embeds `ucs_config_parser_set_default_values`: alias and deprecated
fields are skipped; a sub-table first gets its own defaults recursively, and
then every (remaining) field's `dfl_value` is parsed into its slot. -/
def ucs_config_parser_set_default_values {V : Type} (store : Store V) (base : Nat)
    (fields : List (CField V)) : UcsStatus × Store V :=
  match fields with
  | [] => (UcsStatus.ok, store)
  | f :: rest =>
    if ucs_config_is_alias_field f || ucs_config_is_deprecated_field f then
      ucs_config_parser_set_default_values store base rest
    else
      match f with
      | CField.mk fname fdfl foff fparser =>
        match fparser with
        | CParser.table sub =>
          match ucs_config_parser_set_default_values store (base + foff) sub with
          | (UcsStatus.ok, st1) =>
            match ucs_config_parser_parse_field
                (CField.mk fname fdfl foff (CParser.table sub)) fdfl st1
                (base + foff) with
            | (UcsStatus.ok, st2) =>
              ucs_config_parser_set_default_values st2 base rest
            | (s, st2) => (s, st2)
          | (s, st1) => (s, st1)
        | CParser.scalar readF writeF =>
          match ucs_config_parser_parse_field
              (CField.mk fname fdfl foff (CParser.scalar readF writeF)) fdfl store
              (base + foff) with
          | (UcsStatus.ok, st2) =>
            ucs_config_parser_set_default_values st2 base rest
          | (s, st2) => (s, st2)
termination_by sizeOf fields

/-- Embeds `ucs_config_apply_config_vars`: walk the fields; a sub-table is
descended twice (once with its own prefix when `recurse` is set, once more
with the inherited `table_prefix`); for every other field the variable
`prefix || table_prefix || name` is looked up first in the environment and
then in the file map, and an existing value is parsed into the slot, with
fallback to the re-parsed default (and recovery under `ignore_errors`) when
the parse fails.  Deprecated fields only warn.  The used-variable set has no
value-level effect and is not modelled. -/
def ucs_config_apply_config_vars {V : Type} (env fileVars : String → Option String)
    (store : Store V) (base : Nat) (fields : List (CField V)) (pfx : String)
    (tp : Option String) (recurse : Bool) (ignoreErrors : Bool) :
    UcsStatus × Store V :=
  match fields with
  | [] => (UcsStatus.ok, store)
  | f :: rest =>
    match f with
    | CField.mk fname fdfl foff fparser =>
      match fparser with
      | CParser.table sub =>
        match
          (if recurse then
            ucs_config_apply_config_vars env fileVars store (base + foff) sub pfx
              (some fname) true ignoreErrors
          else (UcsStatus.ok, store)) with
        | (UcsStatus.ok, st1) =>
          match
            (match tp with
             | some t =>
               ucs_config_apply_config_vars env fileVars st1 (base + foff) sub pfx
                 (some t) false ignoreErrors
             | none => (UcsStatus.ok, st1)) with
          | (UcsStatus.ok, st2) =>
            ucs_config_apply_config_vars env fileVars st2 base rest pfx tp recurse
              ignoreErrors
          | (s, st2) => (s, st2)
        | (s, st1) => (s, st1)
      | CParser.scalar readF writeF =>
        let fullName := pfx ++ tp.getD "" ++ fname
        match
          (match env fullName with
           | some v => some v
           | none => fileVars fullName) with
        | none =>
          ucs_config_apply_config_vars env fileVars store base rest pfx tp recurse
            ignoreErrors
        | some v =>
          if ucs_config_is_deprecated_field
              (CField.mk fname fdfl foff (CParser.scalar readF writeF)) then
            ucs_config_apply_config_vars env fileVars store base rest pfx tp
              recurse ignoreErrors
          else
            match ucs_config_parser_parse_field
                (CField.mk fname fdfl foff (CParser.scalar readF writeF)) (some v)
                store (base + foff) with
            | (UcsStatus.ok, st1) =>
              ucs_config_apply_config_vars env fileVars st1 base rest pfx tp
                recurse ignoreErrors
            | (s, _) =>
              match ucs_config_parser_parse_field
                  (CField.mk fname fdfl foff (CParser.scalar readF writeF)) fdfl
                  store (base + foff) with
              | (tmp, st2) =>
                if (if ignoreErrors then tmp else s) = UcsStatus.ok then
                  ucs_config_apply_config_vars env fileVars st2 base rest pfx tp
                    recurse ignoreErrors
                else ((if ignoreErrors then tmp else s), st2)
termination_by sizeOf fields

/-- Embeds the parts of `ucs_config_global_list_entry_t` that
`ucs_config_parser_fill_opts` reads: the field table and the table prefix. -/
structure GlobalListEntry (V : Type) where
  table : List (CField V)
  pfx : String

/-- The outcome of `ucs_config_parser_fill_opts`: returned status, resulting
store, and whether `ucs_config_parser_release_opts` was invoked on the error
path before returning. -/
structure FillResult (V : Type) where
  status : UcsStatus
  store : Store V
  released : Bool

/-- Embeds `ucs_config_parser_fill_opts`: set defaults, compute the
sub-prefix, (config files are parsed once per process into the file map,
which the model receives as input), apply variables with the sub-prefix when
there is one, then with the full prefix.  Failures of the apply passes
release the opts (`err_free`); failures of `set_default_values` or of the
sub-prefix computation return without releasing (`err`). -/
def ucs_config_parser_fill_opts {V : Type} (env fileVars : String → Option String)
    (store : Store V) (entry : GlobalListEntry V) (envPfx : String)
    (ignoreErrors : Bool) : FillResult V :=
  match ucs_config_parser_set_default_values store 0 entry.table with
  | (UcsStatus.ok, st1) =>
    match ucs_config_parser_get_sub_pfx envPfx with
    | (UcsStatus.ok, subPfx) =>
      match
        (match subPfx with
         | some sp =>
           ucs_config_apply_config_vars env fileVars st1 0 entry.table sp
             (some entry.pfx) true ignoreErrors
         | none => (UcsStatus.ok, st1)) with
      | (UcsStatus.ok, st2) =>
        match ucs_config_apply_config_vars env fileVars st2 0 entry.table envPfx
            (some entry.pfx) true ignoreErrors with
        | (UcsStatus.ok, st3) => ⟨UcsStatus.ok, st3, false⟩
        | (s, st3) => ⟨s, ucs_config_parser_release_opts st3 entry.table, true⟩
      | (s, st2) => ⟨s, ucs_config_parser_release_opts st2 entry.table, true⟩
    | (s, _) => ⟨s, st1, false⟩
  | (s, st1) => ⟨s, st1, false⟩

/-- Embeds `ucs_config_parser_set_value`: the caller-supplied prefix is
passed as the initial `table_prefix`, with `recurse = 1`. -/
def ucs_config_parser_set_value {V : Type} (store : Store V)
    (fields : List (CField V)) (pfx name value : String) : UcsStatus × Store V :=
  ucs_config_parser_set_value_internal store 0 fields name value (some pfx) true

/-- Embeds `ucs_config_parser_get_value` (with non-NULL arguments, which the
C code checks first): scan the fields while the status is `NO_ELEM`; a table
field whose name is a prefix of the requested name redirects the search into
its sub-fields with the consumed part of the name dropped; otherwise any
field whose name the requested name is a prefix of is rendered through its
`write` entry and the status becomes `UCS_OK`.  The table vtable's `write`
entry is declared in a header outside src/; it is modelled as producing no
text. -/
def ucs_config_parser_get_value {V : Type} (store : Store V) (base : Nat)
    (fields : List (CField V)) (name : String) : UcsStatus × Option String :=
  match fields with
  | [] => (UcsStatus.noElem, none)
  | f :: rest =>
    match f with
    | CField.mk fname _ foff fparser =>
      match fparser with
      | CParser.table sub =>
        if fname.data.isPrefixOf name.data then
          match ucs_config_parser_get_value store (base + foff) sub
              ⟨name.data.drop fname.data.length⟩ with
          | (UcsStatus.noElem, _) => ucs_config_parser_get_value store base rest name
          | r => r
        else if name.data.isPrefixOf fname.data then (UcsStatus.ok, none)
        else ucs_config_parser_get_value store base rest name
      | CParser.scalar _ writeF =>
        if name.data.isPrefixOf fname.data then
          (UcsStatus.ok, writeF (store (base + foff)))
        else ucs_config_parser_get_value store base rest name
termination_by sizeOf fields

/-- Parse a list of tokens elementwise, failing when any token fails. -/
def parseAllTokens {V : Type} (readE : String → Option V) :
    List String → Option (List V)
  | [] => some []
  | t :: ts =>
    match readE t with
    | none => none
    | some v =>
      match parseAllTokens readE ts with
      | none => none
      | some vs => some (v :: vs)

/-- A one-field table whose field `X` at offset 0 accepts only the text
`"0"`. -/
def c2Field : CField Nat :=
  CField.mk "X" (some "0") 0
    (CParser.scalar (fun s => if s = "0" then some 0 else none)
      (fun v => some (decString v)))

/-- Registry entry for the table `[c2Field]` with an empty table prefix. -/
def c2Entry : GlobalListEntry Nat := ⟨[c2Field], ""⟩

/-- An environment holding the malformed value `PFX_X=zz`. -/
def c2Env : String → Option String :=
  fun s => if s = "PFX_X" then some "zz" else none

/-- A deprecated field named `FOO` (offset is the deprecation marker). -/
def c3DepField : CField Nat :=
  CField.mk "FOO" (some "d") UCS_CONFIG_DEPRECATED_FIELD_OFFSET
    (CParser.scalar (fun s => if s = "d" then some 5 else none)
      (fun _ => some "d"))

/-- A real field named `FOO` at offset 0 whose parser accepts only `"0"`. -/
def c3RejField : CField Nat :=
  CField.mk "FOO" (some "0") 0
    (CParser.scalar (fun s => if s = "0" then some 0 else none)
      (fun v => some (if v = 0 then "0" else "")))

/-- A deprecated field named `BAR`. -/
def c4DepField : CField Nat :=
  CField.mk "BAR" (some "d") UCS_CONFIG_DEPRECATED_FIELD_OFFSET
    (CParser.scalar (fun s => if s = "d" then some 1 else none)
      (fun _ => some "d"))

/-- A real field named `BAR` at offset 0 accepting `"7"` and `"0"`. -/
def c4OkField : CField Nat :=
  CField.mk "BAR" (some "0") 0
    (CParser.scalar
      (fun s => if s = "7" then some 7 else if s = "0" then some 0 else none)
      (fun v => some (if v = 0 then "0" else "7")))

/-- A field named `AC` at offset 0 whose rendering is the text `42`. -/
def c10ScalarField : CField Nat :=
  CField.mk "AC" (some "0") 0
    (CParser.scalar (fun s => if s = "0" then some 0 else none)
      (fun _ => some "42"))

/-- Resolution of one variable name during an apply pass: the environment map is consulted before the file map, matching the getenv-before-file-table order in ucs_config_apply_config_vars. -/
def applyLookup (env fileVars : String → Option String) (pfx : String)
    (tp : Option String) (fname : String) : Option String :=
  match env (pfx ++ tp.getD "" ++ fname) with
  | some v => some v
  | none => fileVars (pfx ++ tp.getD "" ++ fname)

/-- Outcome of one field slot after an apply pass, given the looked-up text: absent text keeps the current value, a parse success stores the parsed value, and a parse failure restores the field default (set_value_internal error path). -/
def applySlotOutcome {V : Type} (f : CField V) (cur : V) :
    Option String → Option V
  | none => some cur
  | some t =>
    match f.readFn t with
    | some v => some v
    | none => f.dflValue.bind f.readFn

/-- The resolution chain fill_opts actually implements for one field: environment under the full prefix, then file value under the full prefix, then (when a sub-prefix exists) environment under the sub-prefix, then file value under the sub-prefix, then the field default; each level parses its text with the field parser. -/
def c1Resolved {V : Type} (env fileVars : String → Option String)
    (envPfx : String) (sub : Option String) (tp : String) (f : CField V) :
    Option V :=
  match applyLookup env fileVars envPfx (some tp) f.name with
  | some t => f.readFn t
  | none =>
    match sub with
    | some sp =>
      match applyLookup env fileVars sp (some tp) f.name with
      | some t => f.readFn t
      | none => f.dflValue.bind f.readFn
    | none => f.dflValue.bind f.readFn

/-- A one-field table for the C1 concrete instances: field X at offset 0, default "0", uint parser. -/
def c1Field : CField Nat :=
  CField.mk "X" (some "0") 0 (CParser.scalar sscanf_u (fun _ => some "w"))

/-- Global-list entry holding c1Field with empty table prefix. -/
def c1Entry : GlobalListEntry Nat := ⟨[c1Field], ""⟩

/-- Environment for the C1 counterexample: only the sub-prefix name CD_X is set. -/
def c1Env : String → Option String :=
  fun s => if s = "CD_X" then some "7" else none

/-- Environment for the C1 witness: the full-prefix name PFX_X is set. -/
def c1EnvW : String → Option String :=
  fun s => if s = "PFX_X" then some "5" else none

/-- A one-field table for the C5 witness: field X at offset 0, default "0", uint parser. -/
def c5Field : CField Nat :=
  CField.mk "X" (some "0") 0 (CParser.scalar sscanf_u (fun _ => some "w"))

/-- Global-list entry holding c5Field with empty table prefix. -/
def c5Entry : GlobalListEntry Nat := ⟨[c5Field], ""⟩

/-- Environment for the C5 witness: PFX_X is set to the unparsable text "banana". -/
def c5Env : String → Option String :=
  fun s => if s = "PFX_X" then some "banana" else none

/-- Auxiliary list fact: `getD` at the junction of an append. -/
theorem getD_append_length (xs ys : List Char) (c d : Char) :
    (xs ++ c :: ys).getD xs.length d = c := by
  induction xs with
  | nil => rfl
  | cons x xs ih => simpa using ih

/-- Auxiliary list fact: `getD` beyond the junction of an append. -/
theorem getD_append_length_add (xs ys : List Char) (c d : Char) (k : Nat) :
    (xs ++ c :: ys).getD (xs.length + 1 + k) d = ys.getD k d := by
  induction xs with
  | nil =>
    have h : 0 + 1 + k = k + 1 := by omega
    simp only [List.nil_append, List.length_nil, h, List.getD_cons_succ]
  | cons x xs ih =>
    have h : (x :: xs).length + 1 + k = (xs.length + 1 + k) + 1 := by
      simp only [List.length_cons]; omega
    rw [h, List.cons_append, List.getD_cons_succ]
    exact ih

/-- Auxiliary list fact: dropping past the junction of an append. -/
theorem drop_append_length_succ (xs ys : List Char) (c : Char) :
    (xs ++ c :: ys).drop (xs.length + 1) = ys := by
  induction xs with
  | nil => rfl
  | cons x xs ih => simpa using ih

/-- The sub-prefix scan stops right after a separator when everything it
inspects above the separator is not `_`. -/
theorem subPfxScan_to_sep (xs ys : List Char) (k : Nat)
    (hys : ∀ j, j < k → ys.getD j ' ' ≠ '_') :
    subPfxScan (xs ++ '_' :: ys) (xs.length + 1 + k) = xs.length + 1 := by
  induction k with
  | zero =>
    simp only [Nat.add_zero, subPfxScan, getD_append_length]
    simp
  | succ k ih =>
    have h : xs.length + 1 + (k + 1) = (xs.length + 1 + k) + 1 := by omega
    rw [h]
    simp only [subPfxScan, getD_append_length_add]
    rw [if_neg (by simpa using hys k (by omega))]
    exact ih fun j hj => hys j (by omega)

/-- The sub-prefix scan reaches position 0 when nothing it inspects is `_`. -/
theorem subPfxScan_eq_zero (cs : List Char) (k : Nat)
    (h : ∀ j, j < k → cs.getD j ' ' ≠ '_') : subPfxScan cs k = 0 := by
  induction k with
  | zero => rfl
  | succ k ih =>
    simp only [subPfxScan]
    rw [if_neg (by simpa using h k (by omega))]
    exact ih fun j hj => h j (by omega)

/-- Data of an appended pair of strings. -/
theorem strData_append (a b : List Char) :
    ((⟨a⟩ : String) ++ (⟨b⟩ : String)).data = a ++ b := rfl

/-- Claim C6, counterexample: the claim asserts that on a prefix without `_`
separators the sub-prefix computation is a silent no-op with no error
returned, but for the one-character prefix `"A"` (which contains no `_`)
`ucs_config_parser_get_sub_prefix` returns `UCS_ERR_INVALID_PARAM`. -/
theorem c6_sub_pfx_counterexample :
    ('_' ∉ "A".data) ∧
      ucs_config_parser_get_sub_pfx "A" = (UcsStatus.invalidParam, none) := by
  constructor
  · decide
  · rfl

/-- Claim C6 (amended): for `env_prefix = "<A>_<B>_"` with `<B>` a non-empty
segment free of `_`, the sub-prefix is `"<B>_"`; for a single-segment prefix
`"<B>_"` the sub-prefix is absent; and for a prefix of length at least 2
without any `_` the computation is a silent no-op returning `UCS_OK` and no
sub-prefix (prefixes shorter than two characters yield
`UCS_ERR_INVALID_PARAM` instead). -/
theorem c6_sub_pfx_amended :
    (∀ A B : String, B.data ≠ [] → '_' ∉ B.data →
      ucs_config_parser_get_sub_pfx (A ++ "_" ++ B ++ "_") =
        (UcsStatus.ok, some (B ++ "_"))) ∧
    (∀ B : String, B.data ≠ [] → '_' ∉ B.data →
      ucs_config_parser_get_sub_pfx (B ++ "_") = (UcsStatus.ok, none)) ∧
    (∀ s : String, 2 ≤ s.data.length → '_' ∉ s.data →
      ucs_config_parser_get_sub_pfx s = (UcsStatus.ok, none)) := by
  refine ⟨?_, ?_, ?_⟩
  · intro A B hBne hBu
    obtain ⟨as⟩ := A
    obtain ⟨bs⟩ := B
    have hb : 0 < bs.length := List.length_pos.mpr hBne
    have hdata : ((⟨as⟩ : String) ++ "_" ++ (⟨bs⟩ : String) ++ "_").data =
        as ++ '_' :: (bs ++ ['_']) := by
      show ((as ++ ['_']) ++ bs) ++ ['_'] = as ++ '_' :: (bs ++ ['_'])
      simp
    unfold ucs_config_parser_get_sub_pfx
    rw [hdata]
    have hlen : (as ++ '_' :: (bs ++ ['_'])).length =
        as.length + 1 + bs.length + 1 := by simp; omega
    rw [if_neg (by rw [hlen]; omega)]
    have hsub : (as ++ '_' :: (bs ++ ['_'])).length - 2 =
        as.length + 1 + (bs.length - 1) := by rw [hlen]; omega
    rw [hsub, subPfxScan_to_sep]
    · have hfin : ((⟨bs⟩ : String) ++ "_") = (⟨bs ++ ['_']⟩ : String) := rfl
      rw [hfin]
      simp [drop_append_length_succ]
    · intro j hj
      rw [List.getD_append _ _ _ _ (by omega),
        List.getD_eq_getElem _ _ (by omega)]
      exact fun hc => hBu (hc ▸ List.getElem_mem _)
  · intro B hBne hBu
    obtain ⟨bs⟩ := B
    have hb : 0 < bs.length := List.length_pos.mpr hBne
    have hdata : ((⟨bs⟩ : String) ++ "_").data = bs ++ ['_'] := rfl
    unfold ucs_config_parser_get_sub_pfx
    rw [hdata]
    have hlen : (bs ++ ['_']).length = bs.length + 1 := by simp
    rw [if_neg (by rw [hlen]; omega)]
    rw [hlen, subPfxScan_eq_zero]
    · simp
    · intro j hj
      rw [List.getD_append _ _ _ _ (by omega),
        List.getD_eq_getElem _ _ (by omega)]
      exact fun hc => hBu (hc ▸ List.getElem_mem _)
  · intro s hlen hu
    unfold ucs_config_parser_get_sub_pfx
    rw [if_neg (by omega)]
    rw [subPfxScan_eq_zero]
    · simp
    · intro j hj
      rw [List.getD_eq_getElem _ _ (by omega)]
      exact fun hc => hu (hc ▸ List.getElem_mem _)

/-- Claim C6, witness: the amended statement evaluated at the concrete
prefixes `"UCX_IB_"`, `"UCX_"` and `"AB"`. -/
theorem c6_sub_pfx_witness :
    ucs_config_parser_get_sub_pfx ("UCX" ++ "_" ++ "IB" ++ "_") =
        (UcsStatus.ok, some ("IB" ++ "_")) ∧
      ucs_config_parser_get_sub_pfx ("UCX" ++ "_") = (UcsStatus.ok, none) ∧
      ucs_config_parser_get_sub_pfx "AB" = (UcsStatus.ok, none) :=
  ⟨c6_sub_pfx_amended.1 "UCX" "IB" (by decide) (by decide),
   c6_sub_pfx_amended.2.1 "UCX" (by decide) (by decide),
   c6_sub_pfx_amended.2.2 "AB" (by decide) (by decide)⟩

/-- The array token loop consumes exactly `maxA - i` further tokens when they
all parse and enough of them are available. -/
theorem sscanfArrayGo_spec {V : Type} (readE : String → Option V) (maxA : Nat) :
    ∀ (ts : List String) (i : Nat) (acc vs : List V), i < maxA →
      maxA - i ≤ ts.length →
      parseAllTokens readE (ts.take (maxA - i)) = some vs →
      sscanfArrayGo readE maxA ts i acc = some (acc.reverse ++ vs, maxA) := by
  intro ts
  induction ts with
  | nil =>
    intro i acc vs hi hle _
    simp at hle
    omega
  | cons t ts ih =>
    intro i acc vs hi hle hparse
    have hn : maxA - i = (maxA - i - 1) + 1 := by omega
    rw [hn, List.take_succ_cons] at hparse
    cases hv : readE t with
    | none => rw [parseAllTokens, hv] at hparse; exact absurd hparse (by simp)
    | some v =>
      rw [parseAllTokens, hv] at hparse
      cases hrest : parseAllTokens readE (ts.take (maxA - i - 1)) with
      | none => rw [hrest] at hparse; exact absurd hparse (by simp)
      | some vs' =>
        rw [hrest] at hparse
        have hvs : vs = v :: vs' := by
          simp at hparse
          exact hparse.symm
        subst hvs
        simp only [sscanfArrayGo, hv]
        by_cases hstop : i + 1 ≥ maxA
        · rw [if_pos hstop]
          have hmaxa : maxA = i + 1 := by omega
          have hk : maxA - i - 1 = 0 := by omega
          rw [hk] at hrest
          have hvs' : vs' = [] := by
            rw [List.take_zero, parseAllTokens] at hrest
            simpa using hrest.symm
          subst hvs'
          simp [hmaxa]
        · rw [if_neg hstop]
          have hrec := ih (i + 1) (v :: acc) vs' (by omega)
            (by simp at hle ⊢; omega)
            (by rw [show maxA - (i + 1) = maxA - i - 1 by omega]; exact hrest)
          rw [hrec]
          simp

/-- Claim C7: for every input whose `strtok` tokenisation yields more than
`maxA` (`UCS_CONFIG_ARRAY_MAX`) comma-separated tokens and whose first
`maxA` tokens each parse under the element parser, `ucs_config_sscanf_array`
parses exactly those first `maxA` tokens, sets the array count to `maxA`,
and returns success. -/
theorem c7_array_max {V : Type} (readE : String → Option V) (maxA : Nat)
    (buf : String) (vs : List V) (hpos : 0 < maxA)
    (hlen : maxA < (strtokSplit ',' buf).length)
    (hparse : parseAllTokens readE ((strtokSplit ',' buf).take maxA) = some vs) :
    ucs_config_sscanf_array readE maxA buf = some (vs, maxA) := by
  unfold ucs_config_sscanf_array
  have h := sscanfArrayGo_spec readE maxA (strtokSplit ',' buf) 0 [] vs hpos
    (by omega) (by simpa using hparse)
  simpa using h

/-- Claim C7, witness: four tokens with bound 2; the first two are parsed,
the count is 2, and the read succeeds. -/
theorem c7_array_max_witness :
    ucs_config_sscanf_array (V := Nat) sscanf_u 2 "7,8,9,10" = some ([7, 8], 2) :=
  c7_array_max sscanf_u 2 "7,8,9,10" [7, 8] (by decide) (by decide) (by decide)

/-- The code of a digit character. -/
theorem digitChar_toNat {d : Nat} (h : d < 10) : (digitChar d).toNat = 48 + d := by
  unfold digitChar Char.ofNat
  rw [dif_pos]
  · rfl
  · constructor; omega

/-- Digit value of a digit character. -/
theorem charDigitVal_digitChar {d : Nat} (h : d < 10) :
    charDigitVal (digitChar d) = d := by
  simp [charDigitVal, digitChar_toNat h]

/-- Digit characters are classified as digits. -/
theorem isDigitChar_digitChar {d : Nat} (h : d < 10) :
    isDigitChar (digitChar d) = true := by
  simp only [isDigitChar, digitChar_toNat h]
  simp
  omega

/-- Digit characters are not whitespace. -/
theorem not_isSpaceChar_digitChar {d : Nat} (h : d < 10) :
    isSpaceChar (digitChar d) = false := by
  simp only [isSpaceChar, digitChar_toNat h]
  simp
  omega

/-- Digit characters are unchanged by ASCII lowercasing. -/
theorem asciiToLower_digitChar {d : Nat} (h : d < 10) :
    asciiToLower (digitChar d) = digitChar d := by
  rw [asciiToLower, if_neg]
  rw [digitChar_toNat h]
  omega

/-- Decimal digit lists are never empty. -/
theorem decDigits_ne_nil (n : Nat) : decDigits n ≠ [] := by
  rw [decDigits]
  split <;> simp

/-- Every entry of a decimal digit list is a digit. -/
theorem decDigits_all_lt (n : Nat) : ∀ d ∈ decDigits n, d < 10 := by
  induction n using Nat.strong_induction_on with
  | _ n ih =>
    rw [decDigits]
    split
    · rename_i h
      intro d hd
      simp at hd
      omega
    · rename_i h
      intro d hd
      rw [List.mem_append] at hd
      rcases hd with h1 | h2
      · exact ih (n / 10) (Nat.div_lt_self (by omega) (by omega)) d h1
      · simp at h2
        subst h2
        exact Nat.mod_lt _ (by omega)

/-- Reading back the digit characters of `n` recovers `n`. -/
theorem digitsVal_map_decDigits (n : Nat) :
    digitsVal ((decDigits n).map digitChar) = n := by
  induction n using Nat.strong_induction_on with
  | _ n ih =>
    rw [decDigits]
    split
    · rename_i h
      simp [digitsVal, charDigitVal_digitChar h]
    · rename_i h
      rw [List.map_append]
      unfold digitsVal
      rw [List.foldl_append]
      have h1 : digitsVal ((decDigits (n / 10)).map digitChar) = n / 10 :=
        ih (n / 10) (Nat.div_lt_self (by omega) (by omega))
      unfold digitsVal at h1
      rw [h1]
      simp [charDigitVal_digitChar (Nat.mod_lt n (show 0 < 10 by omega))]
      omega

/-- A `takeWhile` over a list all of whose entries satisfy the predicate. -/
theorem takeWhile_eq_self_of_all {α : Type} (p : α → Bool) :
    ∀ l : List α, (∀ c ∈ l, p c = true) → l.takeWhile p = l := by
  intro l
  induction l with
  | nil => intro _; rfl
  | cons c cs ih =>
    intro h
    rw [List.takeWhile_cons, if_pos (h c (by simp))]
    rw [ih fun x hx => h x (by simp [hx])]

/-- `sscanf("%u")` applied to the decimal rendering of `n`. -/
theorem sscanf_u_decString (n : Nat) (h : n < 2 ^ 32) :
    sscanf_u (decString n) = some n := by
  have hdata : (decString n).data = (decDigits n).map digitChar := rfl
  have hall : ∀ c ∈ (decDigits n).map digitChar, isDigitChar c = true := by
    intro c hc
    rw [List.mem_map] at hc
    obtain ⟨d, hd, rfl⟩ := hc
    exact isDigitChar_digitChar (decDigits_all_lt n d hd)
  have hdrop : ((decDigits n).map digitChar).dropWhile isSpaceChar =
      (decDigits n).map digitChar := by
    cases hdd : (decDigits n).map digitChar with
    | nil => rfl
    | cons c cs =>
      rw [List.dropWhile_cons, if_neg]
      have hc : c ∈ (decDigits n).map digitChar := by rw [hdd]; simp
      rw [List.mem_map] at hc
      obtain ⟨d, hd, rfl⟩ := hc
      simp [not_isSpaceChar_digitChar (decDigits_all_lt n d hd)]
  have htake : ((decDigits n).map digitChar).takeWhile isDigitChar =
      (decDigits n).map digitChar := takeWhile_eq_self_of_all _ _ hall
  simp only [sscanf_u, hdata, hdrop, htake]
  rw [if_neg (by simp [decDigits_ne_nil n])]
  rw [digitsVal_map_decDigits]
  rw [Nat.mod_eq_of_lt h]

/-- The decimal rendering of a number is never (case-insensitively) the
literal `inf`. -/
theorem strCaseEq_decString_inf (n : Nat) :
    strCaseEq (decString n) "inf" = false := by
  unfold strCaseEq
  have hdata : (decString n).data = (decDigits n).map digitChar := rfl
  have hmap : ((decString n).data).map asciiToLower = (decString n).data := by
    rw [hdata, List.map_map]
    apply List.map_congr_left
    intro d hd
    exact asciiToLower_digitChar (decDigits_all_lt n d hd)
  rw [hmap]
  have hinf : ("inf".data).map asciiToLower = "inf".data := by decide
  rw [hinf]
  cases hdd : decDigits n with
  | nil => exact absurd hdd (decDigits_ne_nil n)
  | cons d ds =>
    have hd : d < 10 := decDigits_all_lt n d (by rw [hdd]; simp)
    have hdata2 : (decString n).data = digitChar d :: ds.map digitChar := by
      rw [hdata, hdd]
      rfl
    rw [hdata2]
    rw [beq_eq_false_iff_ne]
    intro heq
    have hhead : digitChar d = 'i' := by
      have := congrArg (fun l => l.headD ' ') heq
      simpa using this
    have hcd := congrArg Char.toNat hhead
    rw [digitChar_toNat hd] at hcd
    have hiv : Char.toNat 'i' = 105 := by decide
    rw [hiv] at hcd
    omega

/-- Claim C8, amended: write composed with read is the identity on canonical
text for the two parsers the claim's particulars cite — the unsigned parser
(`ucs_config_sscanf_uint`/`ucs_config_sprintf_uint`) and the ternary-auto
parser; in particular `inf` reads as `UINT_MAX` and `UINT_MAX` writes back
as `inf`, and `auto`/`try` read to `UCS_AUTO`/`UCS_TRY` and write back as
`auto`/`try`.  The claim's universal over every scalar parser is refuted by
the counterexample: the positive-double parser does not round-trip. -/
theorem c8_round_trip :
    (∀ t : String, ((∃ n, n < UINT_MAX ∧ t = decString n) ∨ t = "inf") →
      ∃ v, ucs_config_sscanf_uint t = some v ∧ ucs_config_sprintf_uint v = t) ∧
    ucs_config_sscanf_uint "inf" = some UINT_MAX ∧
    ucs_config_sprintf_uint UINT_MAX = "inf" ∧
    ucs_config_sscanf_ternary_auto "auto" = some UCS_AUTO ∧
    ucs_config_sscanf_ternary_auto "try" = some UCS_TRY ∧
    ucs_config_sprintf_ternary_auto UCS_AUTO = "auto" ∧
    ucs_config_sprintf_ternary_auto UCS_TRY = "try" ∧
    (∀ t : String, t ∈ (["auto", "try", "y", "n"] : List String) →
      ∃ v, ucs_config_sscanf_ternary_auto t = some v ∧
        ucs_config_sprintf_ternary_auto v = t) := by
  refine ⟨?_, by decide, by decide, by decide, by decide, by decide, by decide, ?_⟩
  · intro t ht
    rcases ht with ⟨n, hn, rfl⟩ | rfl
    · refine ⟨n, ?_, ?_⟩
      · rw [ucs_config_sscanf_uint, strCaseEq_decString_inf]
        simp only [Bool.false_eq_true, if_false]
        exact sscanf_u_decString n (by unfold UINT_MAX at hn; omega)
      · rw [ucs_config_sprintf_uint, if_neg (by omega)]
    · exact ⟨UINT_MAX, by decide, by decide⟩
  · intro t ht
    fin_cases ht
    · exact ⟨UCS_AUTO, by decide, by decide⟩
    · exact ⟨UCS_TRY, by decide, by decide⟩
    · exact ⟨UCS_YES, by decide, by decide⟩
    · exact ⟨UCS_NO, by decide, by decide⟩

/-- Claim C8, witness: the round trip evaluated at the canonical texts of 5,
of `UINT_MAX`, and at `try`. -/
theorem c8_round_trip_witness :
    (∃ v, ucs_config_sscanf_uint (decString 5) = some v ∧
        ucs_config_sprintf_uint v = decString 5) ∧
    (∃ v, ucs_config_sscanf_uint "inf" = some v ∧
        ucs_config_sprintf_uint v = "inf") ∧
    ∃ v, ucs_config_sscanf_ternary_auto "try" = some v ∧
      ucs_config_sprintf_ternary_auto v = "try" :=
  ⟨c8_round_trip.1 (decString 5) (Or.inl ⟨5, by decide, rfl⟩),
   c8_round_trip.1 "inf" (Or.inr rfl),
   c8_round_trip.2.2.2.2.2.2.2 "try" (by decide)⟩

/-- Claim C8, counterexample: the universal over every scalar parser fails
for the positive-double parser (`ucs_config_sscanf_pos_double` /
`ucs_config_sprintf_pos_double`): the value 1/10000 is stored when reading
`"0.0001"` (strictly positive), its canonical rendering through write is
`"0.000"` (the `%.3f` format), and read rejects `"0.000"` because the parsed
value 0 is not strictly positive — the canonical text of a storable value
does not read back at all, so write composed with read is not the identity
on it. -/
theorem c8_round_trip_counterexample :
    ucs_config_sscanf_pos_double "0.0001" = some (1 / 10000) ∧
    ucs_config_sprintf_pos_double (1 / 10000) = "0.000" ∧
    ucs_config_sscanf_pos_double "0.000" = none := by
  have hq : ¬ ((1 : ℚ) / 10000 < 0) := by norm_num
  have hfl : (⌊((1 : ℚ) / 10000) * 1000 + 1 / 2⌋) = 0 := by
    rw [Int.floor_eq_iff] <;> norm_num
  have hd1 : ucs_config_sscanf_double "0.0001" = some (1 / 10000) := by
    simp +decide only [ucs_config_sscanf_double, String.data, if_true,
      if_false]
    rw [show List.takeWhile isDigitChar
        (List.dropWhile isSpaceChar ['0', '.', '0', '0', '0', '1']) = ['0']
      from by decide]
    rw [show List.takeWhile isDigitChar
        (List.drop 1 (List.dropWhile isDigitChar
          (List.dropWhile isSpaceChar ['0', '.', '0', '0', '0', '1']))) =
        ['0', '0', '0', '1'] from by decide]
    rw [show digitsVal ['0'] = 0 from by decide,
      show digitsVal ['0', '0', '0', '1'] = 1 from by decide]
    norm_num
  have hd0 : ucs_config_sscanf_double "0.000" = some 0 := by
    simp +decide only [ucs_config_sscanf_double, String.data, if_true,
      if_false]
    rw [show List.takeWhile isDigitChar
        (List.dropWhile isSpaceChar ['0', '.', '0', '0', '0']) = ['0']
      from by decide]
    rw [show List.takeWhile isDigitChar
        (List.drop 1 (List.dropWhile isDigitChar
          (List.dropWhile isSpaceChar ['0', '.', '0', '0', '0']))) =
        ['0', '0', '0'] from by decide]
    rw [show digitsVal ['0'] = 0 from by decide,
      show digitsVal ['0', '0', '0'] = 0 from by decide]
    norm_num
  have hds : decString 0 = "0" := by
    rw [decString, decDigits, if_pos (by norm_num)]
    decide
  have hfp : fracPad3 0 = "000" := by
    rw [fracPad3, if_pos (by norm_num), hds]
    decide
  refine ⟨?_, ?_, ?_⟩
  · rw [ucs_config_sscanf_pos_double, if_neg (by decide), hd1]
    dsimp only
    rw [if_pos (by norm_num)]
  · rw [ucs_config_sprintf_pos_double,
      if_neg (by rw [UCS_CONFIG_DBL_AUTO]; norm_num),
      ucs_config_sprintf_double]
    simp only [if_neg hq]
    rw [hfl]
    rw [show Int.toNat 0 / 1000 = 0 from by decide,
      show Int.toNat 0 % 1000 = 0 from by decide, hds, hfp]
    decide
  · rw [ucs_config_sscanf_pos_double, if_neg (by decide), hd0]
    dsimp only
    rw [if_neg (by norm_num)]

/-- Claim C9: at the failing input (`env_prefix = "UCX_"`, `prefix = ""`,
`name = "MODE"`, a file map holding the fully-qualified key `"UCX_MODE"`, no
environment variables), a file override for the fully-qualified name exists,
yet `ucs_config_parser_is_default` reports the field as default — its file
lookup is keyed by the bare `name` although the file map (as filled and
queried everywhere else, see `ucs_config_apply_config_vars`) is keyed by
fully-qualified names — so `COMMENT_DEFAULT` printing emits the `# ` prefix
against the claim. -/
theorem c9_is_default_bug :
    ucs_config_parser_is_default (fun _ => none)
        (fun s => if s = "UCX_MODE" then some "poll" else none)
        "UCX_" "" "MODE" = true ∧
      (fun s => if s = "UCX_MODE" then some "poll" else none)
          ("UCX_" ++ "" ++ "MODE") = some "poll" ∧
      printFieldCommentPfx true (fun _ => none)
        (fun s => if s = "UCX_MODE" then some "poll" else none)
        "UCX_" "" "MODE" = "# " := by
  refine ⟨by decide, by decide, by decide⟩

/-- Claim C2, counterexample: with an empty field table and
`env_prefix = "X"` (shorter than two characters), `fill_opts` returns
`UCS_ERR_INVALID_PARAM` without ever invoking `release_opts`, contradicting
the claim that every non-OK return has released the opts. -/
theorem c2_release_counterexample :
    (ucs_config_parser_fill_opts (V := Nat) (fun _ => none) (fun _ => none)
        (fun _ => 0) ⟨[], ""⟩ "X" false).status = UcsStatus.invalidParam ∧
      (ucs_config_parser_fill_opts (V := Nat) (fun _ => none) (fun _ => none)
        (fun _ => 0) ⟨[], ""⟩ "X" false).released = false := by
  constructor <;>
    simp [ucs_config_parser_fill_opts, ucs_config_parser_set_default_values,
      ucs_config_parser_get_sub_pfx]

/-- Claim C2 (amended): when `fill_opts` returns a status other than OK, it
has released the opts via `release_opts` exactly when the failure arose in
the variable-application passes; failures of `set_default_values` or of the
sub-prefix computation return without releasing. -/
theorem c2_release_amended {V : Type} (env fileVars : String → Option String)
    (store : Store V) (entry : GlobalListEntry V) (envPfx : String)
    (ignoreErrors : Bool)
    (h : (ucs_config_parser_fill_opts env fileVars store entry envPfx
        ignoreErrors).status ≠ UcsStatus.ok) :
    (ucs_config_parser_fill_opts env fileVars store entry envPfx
        ignoreErrors).released = true ↔
      ((ucs_config_parser_set_default_values store 0 entry.table).1 =
          UcsStatus.ok ∧
        (ucs_config_parser_get_sub_pfx envPfx).1 = UcsStatus.ok) := by
  rw [ucs_config_parser_fill_opts] at h ⊢
  rcases hdef : ucs_config_parser_set_default_values store 0 entry.table
    with ⟨sd, st1⟩
  cases sd with
  | ok =>
    rcases hsub : ucs_config_parser_get_sub_pfx envPfx with ⟨ss, subPfx⟩
    cases ss with
    | ok =>
      rcases happ1 :
        (match subPfx with
         | some sp =>
           ucs_config_apply_config_vars env fileVars st1 0 entry.table sp
             (some entry.pfx) true ignoreErrors
         | none => (UcsStatus.ok, st1)) with ⟨s1, st2⟩
      cases s1 with
      | ok =>
        rcases happ2 : ucs_config_apply_config_vars env fileVars st2 0
            entry.table envPfx (some entry.pfx) true ignoreErrors with ⟨s2, st3⟩
        cases s2 <;> simp_all
      | noElem => simp_all
      | invalidParam => simp_all
      | noMemory => simp_all
      | ioError => simp_all
    | noElem => simp_all
    | invalidParam => simp_all
    | noMemory => simp_all
    | ioError => simp_all
  | noElem => simp_all
  | invalidParam => simp_all
  | noMemory => simp_all
  | ioError => simp_all

/-- Accessor computation: name of a built field. -/
@[simp] theorem CField_name_mk {V : Type} (n : String) (d : Option String)
    (o : Nat) (p : CParser V) : (CField.mk n d o p).name = n := rfl

/-- Accessor computation: default text of a built field. -/
@[simp] theorem CField_dflValue_mk {V : Type} (n : String) (d : Option String)
    (o : Nat) (p : CParser V) : (CField.mk n d o p).dflValue = d := rfl

/-- Accessor computation: offset of a built field. -/
@[simp] theorem CField_offset_mk {V : Type} (n : String) (d : Option String)
    (o : Nat) (p : CParser V) : (CField.mk n d o p).offset = o := rfl

/-- Accessor computation: `read` entry of a built scalar field. -/
@[simp] theorem CField_readFn_mk {V : Type} (n : String) (d : Option String)
    (o : Nat) (r : String → Option V) (w : V → Option String) :
    (CField.mk n d o (CParser.scalar r w)).readFn = r := rfl

/-- Accessor computation: `write` entry of a built scalar field. -/
@[simp] theorem CField_writeFn_mk {V : Type} (n : String) (d : Option String)
    (o : Nat) (r : String → Option V) (w : V → Option String) :
    (CField.mk n d o (CParser.scalar r w)).writeFn = w := rfl

/-- A built scalar field is not a table field. -/
@[simp] theorem is_table_mk_scalar {V : Type} (n : String) (d : Option String)
    (o : Nat) (r : String → Option V) (w : V → Option String) :
    ucs_config_is_table_field (CField.mk n d o (CParser.scalar r w)) = false := rfl

/-- A built table field is a table field. -/
@[simp] theorem is_table_mk_table {V : Type} (n : String) (d : Option String)
    (o : Nat) (sub : List (CField V)) :
    ucs_config_is_table_field (CField.mk n d o (CParser.table sub)) = true := rfl

/-- Deprecation of a built field is an offset comparison. -/
theorem is_deprecated_mk {V : Type} (n : String) (d : Option String) (o : Nat)
    (p : CParser V) :
    ucs_config_is_deprecated_field (CField.mk n d o p) =
      (o == UCS_CONFIG_DEPRECATED_FIELD_OFFSET) := rfl

/-- Reading the slot just written. -/
@[simp] theorem updStore_self {V : Type} (st : Store V) (a : Nat) (v : V) :
    updStore st a v a = v := by simp [updStore]

/-- Reading another slot after a write. -/
theorem updStore_ne {V : Type} (st : Store V) (a x : Nat) (v : V) (h : x ≠ a) :
    updStore st a v x = st x := by simp [updStore, h]

/-- Claim C2, witness: a `fill_opts` run that fails in the apply pass (env
value `zz` rejected) returns non-OK, and the amended equivalence instantiates
to it: the opts was released because defaults and the sub-prefix computation
had succeeded. -/
theorem c2_release_witness :
    (ucs_config_parser_fill_opts c2Env (fun _ => none) (fun _ => 0) c2Entry
        "PFX_" false).status ≠ UcsStatus.ok ∧
      ((ucs_config_parser_fill_opts c2Env (fun _ => none) (fun _ => 0) c2Entry
          "PFX_" false).released = true ↔
        ((ucs_config_parser_set_default_values (fun _ => 0) 0 c2Entry.table).1 =
            UcsStatus.ok ∧
          (ucs_config_parser_get_sub_pfx "PFX_").1 = UcsStatus.ok)) :=
  ⟨by
    simp [ucs_config_parser_fill_opts, ucs_config_parser_set_default_values,
      ucs_config_parser_parse_field, ucs_config_apply_config_vars,
      ucs_config_parser_get_sub_pfx, c2Entry, c2Field, c2Env,
      ucs_config_is_alias_field, ucs_config_is_deprecated_field,
      CField.dflValue, CField.offset, subPfxScan,
      UCS_CONFIG_DEPRECATED_FIELD_OFFSET],
   c2_release_amended c2Env (fun _ => none) (fun _ => 0) c2Entry "PFX_" false
    (by
      simp [ucs_config_parser_fill_opts, ucs_config_parser_set_default_values,
        ucs_config_parser_parse_field, ucs_config_apply_config_vars,
        ucs_config_parser_get_sub_pfx, c2Entry, c2Field, c2Env,
        ucs_config_is_alias_field, ucs_config_is_deprecated_field,
        CField.dflValue, CField.offset, subPfxScan,
        UCS_CONFIG_DEPRECATED_FIELD_OFFSET])⟩

/-- Stepping the resolver loop through a flat list of fields that never cut
the scan short: once the matching field `f` whose parser rejects the value is
reached (or an earlier matching field fails first), the loop returns
`UCS_ERR_INVALID_PARAM` and `f`'s slot still holds its original value. -/
theorem c3_svLoop_reaches {V : Type} (f : CField V) (post : List (CField V))
    (pfx name value bt : String) (v₀ : V)
    (hfscalar : ucs_config_is_table_field f = false)
    (hmatch : ucs_config_pfx_name_match (some pfx) f.name name = true)
    (hfnotdep : ucs_config_is_deprecated_field f = false)
    (hreject : f.readFn value = none)
    (hbackup : f.writeFn v₀ = some bt)
    (hrestore : f.readFn bt = some v₀) :
    ∀ (pre : List (CField V)) (st : Store V) (count : Nat),
      (∀ g ∈ pre, ucs_config_is_table_field g = false) →
      (∀ g ∈ pre, ucs_config_is_deprecated_field g = true →
        ucs_config_pfx_name_match (some pfx) g.name name = false) →
      (∀ g ∈ pre, ucs_config_is_deprecated_field g = false →
        g.offset ≠ f.offset) →
      st (0 + f.offset) = v₀ →
      (svLoop st 0 (pre ++ f :: post) name value (some pfx) true count).1 =
          some UcsStatus.invalidParam ∧
        (svLoop st 0 (pre ++ f :: post) name value (some pfx) true count).2.1
            (0 + f.offset) = v₀ := by
  intro pre
  induction pre with
  | nil =>
    intro st count _ _ _ hst
    obtain ⟨fn, fd, fo, fp⟩ := f
    cases fp with
    | table sub => simp at hfscalar
    | scalar readF writeF =>
      simp only [CField_name_mk, CField_readFn_mk, CField_writeFn_mk,
        CField_offset_mk] at hmatch hreject hbackup hrestore hst ⊢
      simp only [List.nil_append, svLoop, hmatch, if_true]
      rw [if_neg (by simp [hfnotdep])]
      simp only [hst, hbackup, Option.getD_some]
      simp only [ucs_config_parser_parse_field, hreject, hrestore]
      simp
  | cons g pre' ih =>
    intro st count hflat hnodep hoff hst
    obtain ⟨gn, gd, go, gp⟩ := g
    have hgs : ucs_config_is_table_field (CField.mk gn gd go gp) = false :=
      hflat _ (by simp)
    cases gp with
    | table sub => simp at hgs
    | scalar gr gw =>
      simp only [List.cons_append, svLoop]
      by_cases hgm : ucs_config_pfx_name_match (some pfx) gn name
      · rw [if_pos hgm]
        by_cases hgd :
            ucs_config_is_deprecated_field
              (CField.mk gn gd go (CParser.scalar gr gw)) = true
        · have := hnodep _ (by simp) hgd
          simp only [CField_name_mk] at this
          exact absurd hgm (by simp [this])
        · rw [if_neg hgd]
          have hgo : go ≠ f.offset := by
            have h1 := hoff (CField.mk gn gd go (CParser.scalar gr gw))
              (by simp) (by simpa using hgd)
            simpa using h1
          cases hgv : gr value with
          | some nv =>
            simp only [ucs_config_parser_parse_field, hgv]
            refine ih (updStore st (0 + go) nv) (count + 1)
              (fun x hx => hflat x (by simp [hx]))
              (fun x hx h1 => hnodep x (by simp [hx]) h1)
              (fun x hx h1 => hoff x (by simp [hx]) h1) ?_
            rw [updStore_ne st _ _ _ (by omega)]
            exact hst
          | none =>
            simp only [ucs_config_parser_parse_field, hgv]
            cases hgb : gr ((gw (st (0 + go))).getD "") with
            | some rv =>
              simp only [hgb]
              refine ⟨trivial, ?_⟩
              rw [updStore_ne st _ _ _ (by omega)]
              exact hst
            | none =>
              simp only [hgb]
              exact ⟨trivial, hst⟩
      · rw [if_neg hgm]
        exact ih st count (fun x hx => hflat x (by simp [hx]))
          (fun x hx h1 => hnodep x (by simp [hx]) h1)
          (fun x hx h1 => hoff x (by simp [hx]) h1) hst

/-- Claim C3 (amended): for a flat field list and a field `f` whose
fully-qualified name matches the requested name, if `set_value` is called
with a value `f`'s parser rejects — and no deprecated field earlier in the
list also matches (such a match aborts the scan with `NoSuchElement`) — then
`set_value` returns `UCS_ERR_INVALID_PARAM` and `f`'s slot retains its prior
value: the resolver backs it up via `write`, releases the slot, and restores
it from the backup, which succeeds by the round-trip invariant assumed of
the prior value. -/
theorem c3_set_value_amended {V : Type} (store : Store V)
    (pre post : List (CField V)) (f : CField V) (pfx name value bt : String)
    (hflat : ∀ g ∈ pre, ucs_config_is_table_field g = false)
    (hnodep : ∀ g ∈ pre, ucs_config_is_deprecated_field g = true →
      ucs_config_pfx_name_match (some pfx) g.name name = false)
    (hoff : ∀ g ∈ pre, ucs_config_is_deprecated_field g = false →
      g.offset ≠ f.offset)
    (hfscalar : ucs_config_is_table_field f = false)
    (hmatch : ucs_config_pfx_name_match (some pfx) f.name name = true)
    (hfnotdep : ucs_config_is_deprecated_field f = false)
    (hreject : f.readFn value = none)
    (hbackup : f.writeFn (store f.offset) = some bt)
    (hrestore : f.readFn bt = some (store f.offset)) :
    (ucs_config_parser_set_value store (pre ++ f :: post) pfx name value).1 =
        UcsStatus.invalidParam ∧
      (ucs_config_parser_set_value store (pre ++ f :: post) pfx name value).2
          f.offset = store f.offset := by
  have h := c3_svLoop_reaches f post pfx name value bt (store f.offset)
    hfscalar hmatch hfnotdep hreject hbackup hrestore pre store 0
    hflat hnodep hoff (by rw [Nat.zero_add])
  unfold ucs_config_parser_set_value ucs_config_parser_set_value_internal
  rcases hsv : svLoop store 0 (pre ++ f :: post) name value (some pfx) true 0
    with ⟨os, st', c⟩
  rw [hsv] at h
  obtain ⟨h1, h2⟩ := h
  simp at h1
  subst h1
  refine ⟨rfl, ?_⟩
  rw [Nat.zero_add] at h2
  exact h2

/-- Claim C3, counterexample: the field list `[c3DepField, c3RejField]` has a
matching field (`c3RejField`) whose parser rejects the value `"bad"`, yet
`set_value` returns `UCS_ERR_NO_ELEM`, not `UCS_ERR_INVALID_PARAM`: the
deprecated field earlier in the list also matches and aborts the scan. -/
theorem c3_set_value_counterexample :
    ucs_config_pfx_name_match (some "") "FOO" "FOO" = true ∧
      c3RejField.readFn "bad" = none ∧
      (ucs_config_parser_set_value (fun _ => (0 : Nat)) [c3DepField, c3RejField]
          "" "FOO" "bad").1 = UcsStatus.noElem ∧
      UcsStatus.noElem ≠ UcsStatus.invalidParam := by
  refine ⟨by decide, by decide, ?_, by decide⟩
  simp [ucs_config_parser_set_value, ucs_config_parser_set_value_internal,
    svLoop, c3DepField, c3RejField, ucs_config_is_deprecated_field,
    ucs_config_pfx_name_match, fnmatch, fnmatchFuel,
    UCS_CONFIG_DEPRECATED_FIELD_OFFSET]

/-- Claim C3, witness: the amended statement at the one-field list
`[c3RejField]` with rejected value `"bad"`. -/
theorem c3_set_value_witness :
    (ucs_config_parser_set_value (fun _ => (0 : Nat)) ([] ++ c3RejField :: [])
        "" "FOO" "bad").1 = UcsStatus.invalidParam ∧
      (ucs_config_parser_set_value (fun _ => (0 : Nat)) ([] ++ c3RejField :: [])
        "" "FOO" "bad").2 c3RejField.offset = (fun _ => (0 : Nat)) c3RejField.offset :=
  c3_set_value_amended (fun _ => 0) [] [] c3RejField "" "FOO" "bad" "0"
    (by simp) (by simp) (by simp) (by decide) (by decide) (by decide)
    (by decide) (by decide) (by decide)

/-- Claim C4 (amended): a deprecated field hit inside a sub-table makes that
sub-table's scan return `UCS_ERR_NO_ELEM`; the enclosing scan treats this as
no-match and continues, so a later matching field in the enclosing list is
still visited and applied, and the final result is `UCS_OK` with that
field's slot updated.  (Inside a single list the deprecated hit aborts the
scan instead — see the counterexample.) -/
theorem c4_deprecated_continue {V : Type} (store : Store V) (tn : String)
    (dfl₀ : Option String) (toff : Nat) (d y : CField V)
    (pfx name value : String) (nv : V)
    (hd_scalar : ucs_config_is_table_field d = false)
    (hd_dep : ucs_config_is_deprecated_field d = true)
    (hd_match : ucs_config_pfx_name_match (some tn) d.name name = true)
    (hy_scalar : ucs_config_is_table_field y = false)
    (hy_match : ucs_config_pfx_name_match (some pfx) y.name name = true)
    (hy_notdep : ucs_config_is_deprecated_field y = false)
    (hy_parse : y.readFn value = some nv) :
    (ucs_config_parser_set_value store
        [CField.mk tn dfl₀ toff (CParser.table [d]), y] pfx name value).1 =
        UcsStatus.ok ∧
      (ucs_config_parser_set_value store
        [CField.mk tn dfl₀ toff (CParser.table [d]), y] pfx name value).2
          y.offset = nv := by
  obtain ⟨dn, dd, do_, dp⟩ := d
  cases dp with
  | table sub => simp at hd_scalar
  | scalar dr dw =>
    obtain ⟨yn, yd, yo, yp⟩ := y
    cases yp with
    | table sub => simp at hy_scalar
    | scalar yr yw =>
      simp only [CField_name_mk, CField_readFn_mk, CField_offset_mk]
        at hd_match hy_match hy_parse ⊢
      by_cases hdm2 : ucs_config_pfx_name_match (some pfx) dn name
      all_goals
        simp only [ucs_config_parser_set_value,
          ucs_config_parser_set_value_internal, svLoop, svTableSecond,
          ucs_config_parser_parse_field, hd_match, hy_match, hy_parse, hd_dep,
          hy_notdep, hdm2, if_true, if_false, Bool.false_eq_true]
      all_goals simp [updStore]

/-- Claim C4, counterexample: in the single list `[c4DepField, c4OkField]`
both fields match the requested name and the later field would accept the
value, yet the resolver returns `UCS_ERR_NO_ELEM` and the later field is not
applied (its slot still holds 0, not 7): hitting the deprecated field does
not continue the search within the same list. -/
theorem c4_deprecated_counterexample :
    ucs_config_pfx_name_match (some "") "BAR" "BAR" = true ∧
      c4OkField.readFn "7" = some 7 ∧
      (ucs_config_parser_set_value (fun _ => (0 : Nat))
          [c4DepField, c4OkField] "" "BAR" "7").1 = UcsStatus.noElem ∧
      (ucs_config_parser_set_value (fun _ => (0 : Nat))
          [c4DepField, c4OkField] "" "BAR" "7").2 0 = 0 ∧
      (0 : Nat) ≠ 7 := by
  refine ⟨by decide, by decide, ?_, ?_, by decide⟩ <;>
    simp [ucs_config_parser_set_value, ucs_config_parser_set_value_internal,
      svLoop, c4DepField, c4OkField, ucs_config_is_deprecated_field,
      ucs_config_pfx_name_match, fnmatch, fnmatchFuel,
      UCS_CONFIG_DEPRECATED_FIELD_OFFSET]

/-- Claim C4, witness: the amended statement at a table field holding the
deprecated `BAR` followed by a real `BAR`, with the glob name `*BAR`
matching both the prefixed and the bare form. -/
theorem c4_deprecated_continue_witness :
    (ucs_config_parser_set_value (fun _ => (0 : Nat))
        [CField.mk "IB_" (some "") 8 (CParser.table [c4DepField]), c4OkField]
        "" "*BAR" "7").1 = UcsStatus.ok ∧
      (ucs_config_parser_set_value (fun _ => (0 : Nat))
        [CField.mk "IB_" (some "") 8 (CParser.table [c4DepField]), c4OkField]
        "" "*BAR" "7").2 c4OkField.offset = 7 :=
  c4_deprecated_continue (fun _ => 0) "IB_" (some "") 8 c4DepField c4OkField
    "" "*BAR" "7" 7 (by decide) (by decide) (by decide) (by decide) (by decide)
    (by decide) (by decide)

/-- Claim C10 (amended): `get_value` matches field names by prefix, not
exact equality.  When a field `f` is the first match — matching meaning the
requested name is a (character-wise) prefix of the field's name, and no
earlier field either matches this way or is a sub-table whose own name is a
prefix of the requested name (which would redirect the search into its
sub-fields) — `get_value` returns `UCS_OK` and writes `f`'s rendered value;
in particular a strict prefix of a declared field name succeeds.  When no
field matches, `UCS_ERR_NO_ELEM` is returned instead. -/
theorem c10_get_value_amended {V : Type} (store : Store V)
    (pre post : List (CField V)) (f : CField V) (name : String)
    (hpre1 : ∀ g ∈ pre, ucs_config_is_table_field g = true →
      g.name.data.isPrefixOf name.data = false)
    (hpre2 : ∀ g ∈ pre, name.data.isPrefixOf g.name.data = false)
    (hfscalar : ucs_config_is_table_field f = false)
    (hfmatch : name.data.isPrefixOf f.name.data = true) :
    ucs_config_parser_get_value store 0 (pre ++ f :: post) name =
      (UcsStatus.ok, f.writeFn (store (0 + f.offset))) := by
  induction pre with
  | nil =>
    obtain ⟨fn, fd, fo, fp⟩ := f
    cases fp with
    | table sub => simp at hfscalar
    | scalar readF writeF =>
      simp only [CField_name_mk] at hfmatch
      simp only [List.nil_append, ucs_config_parser_get_value, hfmatch, if_true]
      rfl
  | cons g pre' ih =>
    obtain ⟨gn, gd, go, gp⟩ := g
    have hg2 : name.data.isPrefixOf gn.data = false := by
      simpa using hpre2 (CField.mk gn gd go gp) (by simp)
    cases gp with
    | table sub =>
      have hg1 : gn.data.isPrefixOf name.data = false := by
        simpa using hpre1 (CField.mk gn gd go (CParser.table sub)) (by simp) rfl
      simp only [List.cons_append, ucs_config_parser_get_value, hg1, hg2,
        Bool.false_eq_true, if_false]
      exact ih (fun x hx h1 => hpre1 x (by simp [hx]) h1)
        (fun x hx => hpre2 x (by simp [hx]))
    | scalar gr gw =>
      simp only [List.cons_append, ucs_config_parser_get_value, hg2,
        Bool.false_eq_true, if_false]
      exact ih (fun x hx h1 => hpre1 x (by simp [hx]) h1)
        (fun x hx => hpre2 x (by simp [hx]))

/-- Claim C10, counterexample: the claim asserts `get_value` returns OK for
every opts, field list and non-empty name, but for the list `[c10ScalarField]`
and the name `"Z"` (which is a prefix of no field name) it returns
`UCS_ERR_NO_ELEM`. -/
theorem c10_get_value_counterexample :
    "Z" ≠ "" ∧
      ucs_config_parser_get_value (fun _ => (0 : Nat)) 0 [c10ScalarField] "Z" =
        (UcsStatus.noElem, none) ∧
      UcsStatus.noElem ≠ UcsStatus.ok := by
  refine ⟨by decide, ?_, by decide⟩
  simp [ucs_config_parser_get_value, c10ScalarField]

/-- Claim C10, witness: the strict prefix `"A"` of the declared field name
`"AC"` succeeds and the field's rendered value is written. -/
theorem c10_get_value_witness :
    ucs_config_parser_get_value (fun _ => (0 : Nat)) 0
        ([] ++ c10ScalarField :: []) "A" =
      (UcsStatus.ok,
        c10ScalarField.writeFn ((fun _ => (0 : Nat))
          (0 + c10ScalarField.offset))) :=
  c10_get_value_amended (fun _ => 0) [] [] c10ScalarField "A" (by simp)
    (by simp) (by decide) (by decide)

/-- Frame lemma: an apply pass over a flat field list leaves every slot unchanged that is not the slot of some non-deprecated field. -/
theorem apply_flat_frame {V : Type} (env fileVars : String → Option String)
    (pfx : String) (tp : Option String) (recurse ig : Bool) (base : Nat) :
    ∀ (fields : List (CField V)) (st : Store V) (a : Nat),
      (∀ g ∈ fields, ucs_config_is_table_field g = false) →
      (∀ g ∈ fields, ucs_config_is_deprecated_field g = false →
        a ≠ base + g.offset) →
      (ucs_config_apply_config_vars env fileVars st base fields pfx tp recurse
        ig).2 a = st a := by
  intro fields
  induction fields with
  | nil =>
    intro st a _ _
    simp [ucs_config_apply_config_vars]
  | cons g rest ih =>
    intro st a hflat hoff
    obtain ⟨gn, gd, go, gp⟩ := g
    have hgs := hflat _ (List.mem_cons_self _ _)
    cases gp with
    | table sub => simp at hgs
    | scalar gr gw =>
      simp only [ucs_config_apply_config_vars]
      have ihr : ∀ st' : Store V,
          (ucs_config_apply_config_vars env fileVars st' base rest pfx tp
            recurse ig).2 a = st' a :=
        fun st' => ih st' a (fun x hx => hflat x (by simp [hx]))
          (fun x hx h1 => hoff x (by simp [hx]) h1)
      cases henv : env (pfx ++ tp.getD "" ++ gn) with
      | some v =>
        simp only [henv]
        by_cases hgd :
            ucs_config_is_deprecated_field
              (CField.mk gn gd go (CParser.scalar gr gw)) = true
        · simp only [hgd, if_true]
          exact ihr st
        · rw [if_neg (by simp [hgd])]
          have ha : a ≠ base + go := by
            have h1 := hoff (CField.mk gn gd go (CParser.scalar gr gw))
              (by simp) (by simpa using hgd)
            simpa using h1
          cases hgv : gr v with
          | some nv =>
            simp only [ucs_config_parser_parse_field, hgv]
            rw [ihr (updStore st (base + go) nv)]
            exact updStore_ne st _ _ _ ha
          | none =>
            simp only [ucs_config_parser_parse_field, hgv]
            cases gd with
            | none =>
              cases hig : ig <;> simp [ucs_config_parser_parse_field]
            | some d =>
              cases hgb : gr d <;> cases hig : ig <;> subst hig <;>
                simp [ucs_config_parser_parse_field, hgb, ihr, updStore, ha]
      | none =>
        cases hfile : fileVars (pfx ++ tp.getD "" ++ gn) with
        | some v =>
          simp only [henv, hfile]
          by_cases hgd :
              ucs_config_is_deprecated_field
                (CField.mk gn gd go (CParser.scalar gr gw)) = true
          · simp only [hgd, if_true]
            exact ihr st
          · rw [if_neg (by simp [hgd])]
            have ha : a ≠ base + go := by
              have h1 := hoff (CField.mk gn gd go (CParser.scalar gr gw))
                (by simp) (by simpa using hgd)
              simpa using h1
            cases hgv : gr v with
            | some nv =>
              simp only [ucs_config_parser_parse_field, hgv]
              rw [ihr (updStore st (base + go) nv)]
              exact updStore_ne st _ _ _ ha
            | none =>
              simp only [ucs_config_parser_parse_field, hgv]
              cases gd with
              | none =>
                cases hig : ig <;> simp [ucs_config_parser_parse_field]
              | some d =>
                cases hgb : gr d <;> cases hig : ig <;> subst hig <;>
                  simp [ucs_config_parser_parse_field, hgb, ihr, updStore, ha]
        | none =>
          simp only [henv, hfile]
          exact ihr st

/-- An apply pass over a flat field list returns either OK or InvalidParam. -/
theorem apply_flat_status {V : Type} (env fileVars : String → Option String)
    (pfx : String) (tp : Option String) (recurse ig : Bool) (base : Nat) :
    ∀ (fields : List (CField V)) (st : Store V),
      (∀ g ∈ fields, ucs_config_is_table_field g = false) →
      ((ucs_config_apply_config_vars env fileVars st base fields pfx tp recurse
          ig).1 = UcsStatus.ok ∨
        (ucs_config_apply_config_vars env fileVars st base fields pfx tp recurse
          ig).1 = UcsStatus.invalidParam) := by
  intro fields
  induction fields with
  | nil =>
    intro st _
    left
    simp [ucs_config_apply_config_vars]
  | cons g rest ih =>
    intro st hflat
    obtain ⟨gn, gd, go, gp⟩ := g
    have hgs := hflat _ (List.mem_cons_self _ _)
    cases gp with
    | table sub => simp at hgs
    | scalar gr gw =>
      have ihr : ∀ st' : Store V, _ :=
        fun st' => ih st' (fun x hx => hflat x (by simp [hx]))
      simp only [ucs_config_apply_config_vars]
      cases henv : env (pfx ++ tp.getD "" ++ gn) with
      | some v =>
        simp only [henv]
        by_cases hgd :
            ucs_config_is_deprecated_field
              (CField.mk gn gd go (CParser.scalar gr gw)) = true
        · simp only [hgd, if_true]
          exact ihr st
        · rw [if_neg (by simp [hgd])]
          cases hgv : gr v with
          | some nv =>
            simp only [ucs_config_parser_parse_field, hgv]
            exact ihr _
          | none =>
            simp only [ucs_config_parser_parse_field, hgv]
            cases gd with
            | none => cases hig : ig <;> subst hig <;>
                simp [ucs_config_parser_parse_field, ihr _]
            | some d =>
              cases hgb : gr d <;> cases hig : ig <;> subst hig <;>
                simp [ucs_config_parser_parse_field, hgb] <;> exact ihr _
      | none =>
        cases hfile : fileVars (pfx ++ tp.getD "" ++ gn) with
        | some v =>
          simp only [henv, hfile]
          by_cases hgd :
              ucs_config_is_deprecated_field
                (CField.mk gn gd go (CParser.scalar gr gw)) = true
          · simp only [hgd, if_true]
            exact ihr st
          · rw [if_neg (by simp [hgd])]
            cases hgv : gr v with
            | some nv =>
              simp only [ucs_config_parser_parse_field, hgv]
              exact ihr _
            | none =>
              simp only [ucs_config_parser_parse_field, hgv]
              cases gd with
              | none => cases hig : ig <;> subst hig <;>
                  simp [ucs_config_parser_parse_field, ihr _]
              | some d =>
                cases hgb : gr d <;> cases hig : ig <;> subst hig <;>
                  simp [ucs_config_parser_parse_field, hgb] <;> exact ihr _
        | none =>
          simp only [henv, hfile]
          exact ihr st

/-- If some non-deprecated field of a flat list has looked-up text its parser rejects and errors are not ignored, the apply pass does not return OK. -/
theorem apply_flat_fail {V : Type} (env fileVars : String → Option String)
    (pfx : String) (tp : Option String) (recurse : Bool) (base : Nat)
    (f : CField V) (t : String)
    (hfnodep : ucs_config_is_deprecated_field f = false)
    (hlook : applyLookup env fileVars pfx tp f.name = some t)
    (hfail : f.readFn t = none) :
    ∀ (fields : List (CField V)) (st : Store V),
      (∀ g ∈ fields, ucs_config_is_table_field g = false) →
      f ∈ fields →
      (ucs_config_apply_config_vars env fileVars st base fields pfx tp recurse
        false).1 ≠ UcsStatus.ok := by
  intro fields
  induction fields with
  | nil => intro st _ hmem; simp at hmem
  | cons g rest ih =>
    intro st hflat hmem
    obtain ⟨gn, gd, go, gp⟩ := g
    have hgs := hflat _ (List.mem_cons_self _ _)
    cases gp with
    | table sub => simp at hgs
    | scalar gr gw =>
      have ihr : ∀ st' : Store V, f ∈ rest → _ :=
        fun st' hm => ih st' (fun x hx => hflat x (by simp [hx])) hm
      simp only [ucs_config_apply_config_vars]
      rcases List.mem_cons.mp hmem with heq | hmem'
      · subst heq
        simp only [CField_name_mk] at hlook hfail
        simp only [CField_readFn_mk] at hfail
        rcases henv : env (pfx ++ tp.getD "" ++ gn) with _ | v
        · rcases hfile : fileVars (pfx ++ tp.getD "" ++ gn) with _ | v
          · rw [applyLookup, henv, hfile] at hlook
            simp at hlook
          · rw [applyLookup, henv, hfile] at hlook
            simp at hlook
            subst hlook
            simp only [henv, hfile]
            rw [if_neg (by simp [hfnodep])]
            simp only [ucs_config_parser_parse_field, hfail]
            cases gd <;> simp [ucs_config_parser_parse_field]
        · rw [applyLookup, henv] at hlook
          simp at hlook
          subst hlook
          simp only [henv]
          rw [if_neg (by simp [hfnodep])]
          simp only [ucs_config_parser_parse_field, hfail]
          cases gd <;> simp [ucs_config_parser_parse_field]
      · cases henv : env (pfx ++ tp.getD "" ++ gn) with
        | some v =>
          simp only [henv]
          by_cases hgd :
              ucs_config_is_deprecated_field
                (CField.mk gn gd go (CParser.scalar gr gw)) = true
          · simp only [hgd, if_true]
            exact ihr st hmem'
          · rw [if_neg (by simp [hgd])]
            cases hgv : gr v with
            | some nv =>
              simp only [ucs_config_parser_parse_field, hgv]
              exact ihr _ hmem'
            | none =>
              simp only [ucs_config_parser_parse_field, hgv]
              cases gd <;> simp [ucs_config_parser_parse_field]
        | none =>
          cases hfile : fileVars (pfx ++ tp.getD "" ++ gn) with
          | some v =>
            simp only [henv, hfile]
            by_cases hgd :
                ucs_config_is_deprecated_field
                  (CField.mk gn gd go (CParser.scalar gr gw)) = true
            · simp only [hgd, if_true]
              exact ihr st hmem'
            · rw [if_neg (by simp [hgd])]
              cases hgv : gr v with
              | some nv =>
                simp only [ucs_config_parser_parse_field, hgv]
                exact ihr _ hmem'
              | none =>
                simp only [ucs_config_parser_parse_field, hgv]
                cases gd <;> simp [ucs_config_parser_parse_field]
          | none =>
            simp only [henv, hfile]
            exact ihr st hmem'

/-- An apply pass with ignore_errors over a flat field list returns OK whenever each matched non-deprecated field either parses its text or has a parsable default. -/
theorem apply_flat_ok {V : Type} (env fileVars : String → Option String)
    (pfx : String) (tp : Option String) (recurse : Bool) (base : Nat) :
    ∀ (fields : List (CField V)) (st : Store V),
      (∀ g ∈ fields, ucs_config_is_table_field g = false) →
      (∀ g ∈ fields, ucs_config_is_deprecated_field g = false →
        ∀ t, applyLookup env fileVars pfx tp g.name = some t →
          (g.readFn t).isSome = true ∨ (g.dflValue.bind g.readFn).isSome = true) →
      (ucs_config_apply_config_vars env fileVars st base fields pfx tp recurse
        true).1 = UcsStatus.ok := by
  intro fields
  induction fields with
  | nil =>
    intro st _ _
    simp [ucs_config_apply_config_vars]
  | cons g rest ih =>
    intro st hflat hrec
    obtain ⟨gn, gd, go, gp⟩ := g
    have hgs := hflat _ (List.mem_cons_self _ _)
    cases gp with
    | table sub => simp at hgs
    | scalar gr gw =>
      have ihr : ∀ st' : Store V, _ :=
        fun st' => ih st' (fun x hx => hflat x (by simp [hx]))
          (fun x hx h1 t h2 => hrec x (by simp [hx]) h1 t h2)
      simp only [ucs_config_apply_config_vars]
      cases henv : env (pfx ++ tp.getD "" ++ gn) with
      | some v =>
        simp only [henv]
        by_cases hgd :
            ucs_config_is_deprecated_field
              (CField.mk gn gd go (CParser.scalar gr gw)) = true
        · simp only [hgd, if_true]
          exact ihr st
        · rw [if_neg (by simp [hgd])]
          have hrecg := hrec (CField.mk gn gd go (CParser.scalar gr gw))
            (by simp) (by simpa using hgd) v
            (by simp [applyLookup, henv])
          simp only [CField_readFn_mk, CField_dflValue_mk] at hrecg
          cases hgv : gr v with
          | some nv =>
            simp only [ucs_config_parser_parse_field, hgv]
            exact ihr _
          | none =>
            simp only [ucs_config_parser_parse_field, hgv]
            rcases hrecg with h1 | h2
            · rw [hgv] at h1
              simp at h1
            · cases gd with
              | none => simp at h2
              | some d =>
                simp only [Option.some_bind] at h2
                cases hgb : gr d with
                | none => rw [hgb] at h2; simp at h2
                | some dv =>
                  simp [ucs_config_parser_parse_field, hgb]
                  exact ihr _
      | none =>
        cases hfile : fileVars (pfx ++ tp.getD "" ++ gn) with
        | some v =>
          simp only [henv, hfile]
          by_cases hgd :
              ucs_config_is_deprecated_field
                (CField.mk gn gd go (CParser.scalar gr gw)) = true
          · simp only [hgd, if_true]
            exact ihr st
          · rw [if_neg (by simp [hgd])]
            have hrecg := hrec (CField.mk gn gd go (CParser.scalar gr gw))
              (by simp) (by simpa using hgd) v
              (by simp [applyLookup, henv, hfile])
            simp only [CField_readFn_mk, CField_dflValue_mk] at hrecg
            cases hgv : gr v with
            | some nv =>
              simp only [ucs_config_parser_parse_field, hgv]
              exact ihr _
            | none =>
              simp only [ucs_config_parser_parse_field, hgv]
              rcases hrecg with h1 | h2
              · rw [hgv] at h1
                simp at h1
              · cases gd with
                | none => simp at h2
                | some d =>
                  simp only [Option.some_bind] at h2
                  cases hgb : gr d with
                  | none => rw [hgb] at h2; simp at h2
                  | some dv =>
                    simp [ucs_config_parser_parse_field, hgb]
                    exact ihr _
        | none =>
          simp only [henv, hfile]
          exact ihr st

/-- Value lemma: after an OK apply pass over a flat field list, the slot of a distinguished non-deprecated field holds applySlotOutcome of its prior value and its looked-up text. -/
theorem apply_flat_go {V : Type} (env fileVars : String → Option String)
    (pfx : String) (tp : Option String) (recurse ig : Bool) (base : Nat)
    (f : CField V) (post : List (CField V)) (v₀ : V)
    (hfscalar : ucs_config_is_table_field f = false)
    (hfnodep : ucs_config_is_deprecated_field f = false)
    (hpost_flat : ∀ g ∈ post, ucs_config_is_table_field g = false)
    (hpost_off : ∀ g ∈ post, ucs_config_is_deprecated_field g = false →
      g.offset ≠ f.offset) :
    ∀ (pre : List (CField V)) (st : Store V),
      (∀ g ∈ pre, ucs_config_is_table_field g = false) →
      (∀ g ∈ pre, ucs_config_is_deprecated_field g = false →
        g.offset ≠ f.offset) →
      st (base + f.offset) = v₀ →
      (ucs_config_apply_config_vars env fileVars st base (pre ++ f :: post) pfx
        tp recurse ig).1 = UcsStatus.ok →
      some ((ucs_config_apply_config_vars env fileVars st base (pre ++ f :: post)
          pfx tp recurse ig).2 (base + f.offset)) =
        applySlotOutcome f v₀ (applyLookup env fileVars pfx tp f.name) := by
  intro pre
  induction pre with
  | nil =>
    intro st _ _ hst hok
    obtain ⟨fn, fd, fo, fp⟩ := f
    cases fp with
    | table sub => simp at hfscalar
    | scalar readF writeF =>
      simp only [CField_name_mk, CField_offset_mk, CField_readFn_mk,
        CField_dflValue_mk] at hst hok ⊢
      have hframe : ∀ st' : Store V,
          (ucs_config_apply_config_vars env fileVars st' base post pfx tp
            recurse ig).2 (base + fo) = st' (base + fo) :=
        fun st' => apply_flat_frame env fileVars pfx tp recurse ig base post
          st' (base + fo) hpost_flat
          (fun x hx h1 => by
            have h2 := hpost_off x hx h1
            simp only [CField_offset_mk] at h2
            omega)
      simp only [List.nil_append, ucs_config_apply_config_vars] at hok ⊢
      cases henv : env (pfx ++ tp.getD "" ++ fn) with
      | some v =>
        simp only [henv] at hok ⊢
        rw [if_neg (by simp [hfnodep])] at hok ⊢
        simp only [applyLookup, henv, applySlotOutcome, CField_readFn_mk,
          CField_dflValue_mk]
        cases hgv : readF v with
        | some nv =>
          simp only [ucs_config_parser_parse_field, hgv] at hok ⊢
          rw [hframe (updStore st (base + fo) nv)]
          simp
        | none =>
          simp only [ucs_config_parser_parse_field, hgv] at hok ⊢
          cases fd with
          | none =>
            cases hig : ig <;> subst hig <;>
              simp [ucs_config_parser_parse_field] at hok
          | some d =>
            cases hgb : readF d with
            | none =>
              cases hig : ig <;> subst hig <;>
                simp [ucs_config_parser_parse_field, hgb] at hok
            | some dv =>
              cases hig : ig <;> subst hig
              · simp [ucs_config_parser_parse_field, hgb] at hok
              · simp only [ucs_config_parser_parse_field, hgb] at hok ⊢
                simp only [if_true] at hok ⊢
                rw [hframe (updStore st (base + fo) dv)]
                simp [hgb]
      | none =>
        cases hfile : fileVars (pfx ++ tp.getD "" ++ fn) with
        | some v =>
          simp only [henv, hfile] at hok ⊢
          rw [if_neg (by simp [hfnodep])] at hok ⊢
          simp only [applyLookup, henv, hfile, applySlotOutcome,
            CField_readFn_mk, CField_dflValue_mk]
          cases hgv : readF v with
          | some nv =>
            simp only [ucs_config_parser_parse_field, hgv] at hok ⊢
            rw [hframe (updStore st (base + fo) nv)]
            simp
          | none =>
            simp only [ucs_config_parser_parse_field, hgv] at hok ⊢
            cases fd with
            | none =>
              cases hig : ig <;> subst hig <;>
                simp [ucs_config_parser_parse_field] at hok
            | some d =>
              cases hgb : readF d with
              | none =>
                cases hig : ig <;> subst hig <;>
                  simp [ucs_config_parser_parse_field, hgb] at hok
              | some dv =>
                cases hig : ig <;> subst hig
                · simp [ucs_config_parser_parse_field, hgb] at hok
                · simp only [ucs_config_parser_parse_field, hgb] at hok ⊢
                  simp only [if_true] at hok ⊢
                  rw [hframe (updStore st (base + fo) dv)]
                  simp [hgb]
        | none =>
          simp only [henv, hfile] at hok ⊢
          simp only [applyLookup, henv, hfile, applySlotOutcome]
          rw [hframe st]
          rw [hst]
  | cons g pre' ih =>
    intro st hflat hoff hst hok
    obtain ⟨gn, gd, go, gp⟩ := g
    have hgs := hflat _ (List.mem_cons_self _ _)
    cases gp with
    | table sub => simp at hgs
    | scalar gr gw =>
      have hgo_ne : ucs_config_is_deprecated_field
          (CField.mk gn gd go (CParser.scalar gr gw)) = false →
          go ≠ f.offset := by
        intro h1
        have h2 := hoff (CField.mk gn gd go (CParser.scalar gr gw)) (by simp) h1
        simpa using h2
      have ihstep : ∀ st' : Store V, st' (base + f.offset) = v₀ →
          (ucs_config_apply_config_vars env fileVars st' base (pre' ++ f :: post)
            pfx tp recurse ig).1 = UcsStatus.ok →
          some ((ucs_config_apply_config_vars env fileVars st' base
              (pre' ++ f :: post) pfx tp recurse ig).2 (base + f.offset)) =
            applySlotOutcome f v₀ (applyLookup env fileVars pfx tp f.name) :=
        fun st' h1 h2 => ih st' (fun x hx => hflat x (by simp [hx]))
          (fun x hx hd => hoff x (by simp [hx]) hd) h1 h2
      simp only [List.cons_append, ucs_config_apply_config_vars] at hok ⊢
      cases henv : env (pfx ++ tp.getD "" ++ gn) with
      | some v =>
        simp only [henv] at hok ⊢
        by_cases hgd :
            ucs_config_is_deprecated_field
              (CField.mk gn gd go (CParser.scalar gr gw)) = true
        · simp only [hgd, if_true] at hok ⊢
          exact ihstep st hst hok
        · rw [if_neg (by simp [hgd])] at hok ⊢
          have hne : go ≠ f.offset := hgo_ne (by simpa using hgd)
          cases hgv : gr v with
          | some nv =>
            simp only [ucs_config_parser_parse_field, hgv] at hok ⊢
            refine ihstep _ ?_ hok
            rw [updStore_ne st _ _ _ (by omega)]
            exact hst
          | none =>
            simp only [ucs_config_parser_parse_field, hgv] at hok ⊢
            cases gd with
            | none =>
              cases hig : ig <;> subst hig <;>
                simp [ucs_config_parser_parse_field] at hok
            | some d =>
              cases hgb : gr d with
              | none =>
                cases hig : ig <;> subst hig <;>
                  simp [ucs_config_parser_parse_field, hgb] at hok
              | some dv =>
                cases hig : ig <;> subst hig
                · simp [ucs_config_parser_parse_field, hgb] at hok
                · simp only [ucs_config_parser_parse_field, hgb] at hok ⊢
                  simp only [if_true] at hok ⊢
                  refine ihstep _ ?_ hok
                  rw [updStore_ne st _ _ _ (by omega)]
                  exact hst
      | none =>
        cases hfile : fileVars (pfx ++ tp.getD "" ++ gn) with
        | some v =>
          simp only [henv, hfile] at hok ⊢
          by_cases hgd :
              ucs_config_is_deprecated_field
                (CField.mk gn gd go (CParser.scalar gr gw)) = true
          · simp only [hgd, if_true] at hok ⊢
            exact ihstep st hst hok
          · rw [if_neg (by simp [hgd])] at hok ⊢
            have hne : go ≠ f.offset := hgo_ne (by simpa using hgd)
            cases hgv : gr v with
            | some nv =>
              simp only [ucs_config_parser_parse_field, hgv] at hok ⊢
              refine ihstep _ ?_ hok
              rw [updStore_ne st _ _ _ (by omega)]
              exact hst
            | none =>
              simp only [ucs_config_parser_parse_field, hgv] at hok ⊢
              cases gd with
              | none =>
                cases hig : ig <;> subst hig <;>
                  simp [ucs_config_parser_parse_field] at hok
              | some d =>
                cases hgb : gr d with
                | none =>
                  cases hig : ig <;> subst hig <;>
                    simp [ucs_config_parser_parse_field, hgb] at hok
                | some dv =>
                  cases hig : ig <;> subst hig
                  · simp [ucs_config_parser_parse_field, hgb] at hok
                  · simp only [ucs_config_parser_parse_field, hgb] at hok ⊢
                    simp only [if_true] at hok ⊢
                    refine ihstep _ ?_ hok
                    rw [updStore_ne st _ _ _ (by omega)]
                    exact hst
        | none =>
          simp only [henv, hfile] at hok ⊢
          exact ihstep st hst hok

/-- set_default_values over a flat list returns OK when the default of every non-alias, non-deprecated field parses. -/
theorem set_defaults_flat_ok {V : Type} (base : Nat) :
    ∀ (fields : List (CField V)) (st : Store V),
      (∀ g ∈ fields, ucs_config_is_table_field g = false) →
      (∀ g ∈ fields, ucs_config_is_alias_field g = false →
        ucs_config_is_deprecated_field g = false →
        (g.dflValue.bind g.readFn).isSome = true) →
      (ucs_config_parser_set_default_values st base fields).1 = UcsStatus.ok := by
  intro fields
  induction fields with
  | nil =>
    intro st _ _
    simp [ucs_config_parser_set_default_values]
  | cons g rest ih =>
    intro st hflat hdfl
    obtain ⟨gn, gd, go, gp⟩ := g
    have hgs := hflat _ (List.mem_cons_self _ _)
    cases gp with
    | table sub => simp at hgs
    | scalar gr gw =>
      have ihr : ∀ st' : Store V, _ :=
        fun st' => ih st' (fun x hx => hflat x (by simp [hx]))
          (fun x hx h1 h2 => hdfl x (by simp [hx]) h1 h2)
      simp only [ucs_config_parser_set_default_values]
      by_cases hskip :
          (ucs_config_is_alias_field (CField.mk gn gd go (CParser.scalar gr gw)) ||
            ucs_config_is_deprecated_field
              (CField.mk gn gd go (CParser.scalar gr gw))) = true
      · rw [if_pos hskip]
        exact ihr st
      · rw [if_neg hskip]
        simp only [Bool.or_eq_true, not_or] at hskip
        have hreal := hdfl (CField.mk gn gd go (CParser.scalar gr gw)) (by simp)
          (by simpa using hskip.1) (by simpa using hskip.2)
        simp only [CField_dflValue_mk, CField_readFn_mk] at hreal
        cases gd with
        | none => simp at hreal
        | some d =>
          simp only [Option.some_bind] at hreal
          cases hgb : gr d with
          | none => rw [hgb] at hreal; simp at hreal
          | some dv =>
            simp only [ucs_config_parser_parse_field, hgb]
            exact ihr _

/-- Frame lemma: set_default_values over a flat list writes only at the slots of non-alias, non-deprecated fields. -/
theorem set_defaults_flat_frame {V : Type} (base : Nat) :
    ∀ (fields : List (CField V)) (st : Store V) (a : Nat),
      (∀ g ∈ fields, ucs_config_is_table_field g = false) →
      (∀ g ∈ fields, ucs_config_is_alias_field g = false →
        ucs_config_is_deprecated_field g = false → a ≠ base + g.offset) →
      (ucs_config_parser_set_default_values st base fields).2 a = st a := by
  intro fields
  induction fields with
  | nil =>
    intro st a _ _
    simp [ucs_config_parser_set_default_values]
  | cons g rest ih =>
    intro st a hflat hoff
    obtain ⟨gn, gd, go, gp⟩ := g
    have hgs := hflat _ (List.mem_cons_self _ _)
    cases gp with
    | table sub => simp at hgs
    | scalar gr gw =>
      have ihr : ∀ st' : Store V, _ :=
        fun st' => ih st' a (fun x hx => hflat x (by simp [hx]))
          (fun x hx h1 h2 => hoff x (by simp [hx]) h1 h2)
      simp only [ucs_config_parser_set_default_values]
      by_cases hskip :
          (ucs_config_is_alias_field (CField.mk gn gd go (CParser.scalar gr gw)) ||
            ucs_config_is_deprecated_field
              (CField.mk gn gd go (CParser.scalar gr gw))) = true
      · rw [if_pos hskip]
        exact ihr st
      · rw [if_neg hskip]
        simp only [Bool.or_eq_true, not_or] at hskip
        have ha : a ≠ base + go := by
          have h1 := hoff (CField.mk gn gd go (CParser.scalar gr gw)) (by simp)
            (by simpa using hskip.1) (by simpa using hskip.2)
          simpa using h1
        cases gd with
        | none => simp [ucs_config_parser_parse_field]
        | some d =>
          cases hgb : gr d with
          | none => simp [ucs_config_parser_parse_field, hgb]
          | some dv =>
            simp only [ucs_config_parser_parse_field, hgb]
            rw [ihr (updStore st (base + go) dv)]
            exact updStore_ne st _ _ _ ha

/-- After set_default_values over a flat list, a non-alias, non-deprecated field whose slot no later such field shares holds its parsed default. -/
theorem set_defaults_flat_slot {V : Type} (base : Nat) (f : CField V)
    (post : List (CField V))
    (hfscalar : ucs_config_is_table_field f = false)
    (hfreal : ucs_config_is_alias_field f = false)
    (hfnodep : ucs_config_is_deprecated_field f = false)
    (hpost_flat : ∀ g ∈ post, ucs_config_is_table_field g = false)
    (hpost_off : ∀ g ∈ post, ucs_config_is_alias_field g = false →
      ucs_config_is_deprecated_field g = false → g.offset ≠ f.offset) :
    ∀ (pre : List (CField V)) (st : Store V),
      (∀ g ∈ pre, ucs_config_is_table_field g = false) →
      (ucs_config_parser_set_default_values st base (pre ++ f :: post)).1 =
        UcsStatus.ok →
      some ((ucs_config_parser_set_default_values st base
          (pre ++ f :: post)).2 (base + f.offset)) =
        f.dflValue.bind f.readFn := by
  intro pre
  induction pre with
  | nil =>
    intro st _ hok
    obtain ⟨fn, fd, fo, fp⟩ := f
    cases fp with
    | table sub => simp at hfscalar
    | scalar readF writeF =>
      simp only [CField_offset_mk, CField_dflValue_mk, CField_readFn_mk]
        at hpost_off hok ⊢
      have hframe : ∀ st' : Store V,
          (ucs_config_parser_set_default_values st' base post).2 (base + fo) =
            st' (base + fo) :=
        fun st' => set_defaults_flat_frame base post st' (base + fo) hpost_flat
          (fun x hx h1 h2 => by
            have h3 := hpost_off x hx h1 h2
            simp only [CField_offset_mk] at h3
            omega)
      simp only [List.nil_append, ucs_config_parser_set_default_values] at hok ⊢
      rw [if_neg (by simp [hfreal, hfnodep])] at hok ⊢
      cases fd with
      | none => simp [ucs_config_parser_parse_field] at hok
      | some d =>
        cases hgb : readF d with
        | none => simp [ucs_config_parser_parse_field, hgb] at hok
        | some dv =>
          simp only [ucs_config_parser_parse_field, hgb] at hok ⊢
          rw [hframe (updStore st (base + fo) dv)]
          simp [hgb]
  | cons g pre' ih =>
    intro st hflat hok
    obtain ⟨gn, gd, go, gp⟩ := g
    have hgs := hflat _ (List.mem_cons_self _ _)
    cases gp with
    | table sub => simp at hgs
    | scalar gr gw =>
      have ihstep : ∀ st' : Store V,
          (ucs_config_parser_set_default_values st' base
            (pre' ++ f :: post)).1 = UcsStatus.ok →
          some ((ucs_config_parser_set_default_values st' base
              (pre' ++ f :: post)).2 (base + f.offset)) =
            f.dflValue.bind f.readFn :=
        fun st' h2 => ih st' (fun x hx => hflat x (by simp [hx])) h2
      simp only [List.cons_append, ucs_config_parser_set_default_values] at hok ⊢
      by_cases hskip :
          (ucs_config_is_alias_field (CField.mk gn gd go (CParser.scalar gr gw)) ||
            ucs_config_is_deprecated_field
              (CField.mk gn gd go (CParser.scalar gr gw))) = true
      · rw [if_pos hskip] at hok ⊢
        exact ihstep st hok
      · rw [if_neg hskip] at hok ⊢
        cases gd with
        | none => simp [ucs_config_parser_parse_field] at hok
        | some d =>
          cases hgb : gr d with
          | none => simp [ucs_config_parser_parse_field, hgb] at hok
          | some dv =>
            simp only [ucs_config_parser_parse_field, hgb] at hok ⊢
            exact ihstep _ hok

/-- C1, amended: for a flat table and a non-alias, non-deprecated field whose slot no other non-deprecated field shares, an OK fill_opts leaves the field slot equal to the five-level chain env(full) > file(full) > env(sub) > file(sub) > default of c1Resolved.  The claimed three-level chain env > file > default is refuted by the counterexample. -/
theorem c1_precedence_amended {V : Type} (env fileVars : String → Option String)
    (store : Store V) (entry : GlobalListEntry V) (envPfx : String)
    (pre post : List (CField V)) (f : CField V)
    (hsplit : entry.table = pre ++ f :: post)
    (hflat : ∀ g ∈ entry.table, ucs_config_is_table_field g = false)
    (hpre_off : ∀ g ∈ pre, ucs_config_is_deprecated_field g = false →
      g.offset ≠ f.offset)
    (hpost_off : ∀ g ∈ post, ucs_config_is_deprecated_field g = false →
      g.offset ≠ f.offset)
    (hfreal : ucs_config_is_alias_field f = false)
    (hfnodep : ucs_config_is_deprecated_field f = false)
    (hok : (ucs_config_parser_fill_opts env fileVars store entry envPfx
        false).status = UcsStatus.ok) :
    some ((ucs_config_parser_fill_opts env fileVars store entry envPfx
        false).store (0 + f.offset)) =
      c1Resolved env fileVars envPfx
        (ucs_config_parser_get_sub_pfx envPfx).2 entry.pfx f := by
  obtain ⟨tbl, epfx⟩ := entry
  simp only [] at hsplit hflat hok ⊢
  subst hsplit
  have hfmem : f ∈ pre ++ f :: post := by simp
  have hfscalar : ucs_config_is_table_field f = false := hflat f hfmem
  have hpre_flat : ∀ g ∈ pre, ucs_config_is_table_field g = false :=
    fun g hg => hflat g (by simp [hg])
  have hpost_flat : ∀ g ∈ post, ucs_config_is_table_field g = false :=
    fun g hg => hflat g (by simp [hg])
  rw [ucs_config_parser_fill_opts] at hok ⊢
  dsimp only at hok ⊢
  rcases hdef : ucs_config_parser_set_default_values store 0 (pre ++ f :: post)
    with ⟨sd, st1⟩
  rw [hdef] at hok
  cases sd with
  | noElem => simp at hok
  | invalidParam => simp at hok
  | noMemory => simp at hok
  | ioError => simp at hok
  | ok =>
  have hslot1 : some (st1 (0 + f.offset)) = f.dflValue.bind f.readFn := by
    have h := set_defaults_flat_slot 0 f post hfscalar hfreal hfnodep
      hpost_flat (fun g hg _ h2 => hpost_off g hg h2) pre store hpre_flat
      (by rw [hdef])
    rw [hdef] at h
    exact h
  obtain ⟨dv, hdv⟩ : ∃ dv, f.dflValue.bind f.readFn = some dv :=
    ⟨st1 (0 + f.offset), hslot1.symm⟩
  have hst1v : st1 (0 + f.offset) = dv := by
    have := hslot1.trans hdv
    simpa using this
  rcases hsub : ucs_config_parser_get_sub_pfx envPfx with ⟨ss, subPfx⟩
  rw [hsub] at hok
  cases ss with
  | noElem => simp at hok
  | invalidParam => simp at hok
  | noMemory => simp at hok
  | ioError => simp at hok
  | ok =>
  simp only []
  cases subPfx with
  | none =>
    dsimp only at hok
    rcases happ2 : ucs_config_apply_config_vars env fileVars st1 0
        (pre ++ f :: post) envPfx (some epfx) true false with ⟨s2, st3⟩
    rw [happ2] at hok
    cases s2 with
    | noElem => simp at hok
    | invalidParam => simp at hok
    | noMemory => simp at hok
    | ioError => simp at hok
    | ok =>
    have hgo2 := apply_flat_go env fileVars envPfx (some epfx) true false 0 f
      post dv hfscalar hfnodep hpost_flat hpost_off pre st1 hpre_flat hpre_off
      hst1v (by rw [happ2])
    rw [happ2] at hgo2
    simp only []
    cases hlk2 : applyLookup env fileVars envPfx (some epfx) f.name with
    | some t =>
      cases hrt : f.readFn t with
      | none =>
        exact absurd (by rw [happ2]) (apply_flat_fail env fileVars envPfx
          (some epfx) true 0 f t hfnodep hlk2 hrt (pre ++ f :: post) st1 hflat
          hfmem)
      | some nv =>
        rw [hlk2] at hgo2
        simp only [applySlotOutcome, hrt] at hgo2
        rw [happ2, c1Resolved, hlk2]
        dsimp only
        rw [hrt]
        exact hgo2
    | none =>
      rw [hlk2] at hgo2
      simp only [applySlotOutcome] at hgo2
      rw [happ2, c1Resolved, hlk2]
      dsimp only
      rw [hdv]
      exact hgo2
  | some sp =>
    dsimp only at hok
    rcases happ1 : ucs_config_apply_config_vars env fileVars st1 0
        (pre ++ f :: post) sp (some epfx) true false with ⟨s1, st2⟩
    rw [happ1] at hok
    cases s1 with
    | noElem => simp at hok
    | invalidParam => simp at hok
    | noMemory => simp at hok
    | ioError => simp at hok
    | ok =>
    have hgo1 := apply_flat_go env fileVars sp (some epfx) true false 0 f
      post dv hfscalar hfnodep hpost_flat hpost_off pre st1 hpre_flat hpre_off
      hst1v (by rw [happ1])
    rw [happ1] at hgo1
    dsimp only at hgo1
    dsimp only at hok
    rcases happ2 : ucs_config_apply_config_vars env fileVars st2 0
        (pre ++ f :: post) envPfx (some epfx) true false with ⟨s2, st3⟩
    rw [happ2] at hok
    cases s2 with
    | noElem => simp at hok
    | invalidParam => simp at hok
    | noMemory => simp at hok
    | ioError => simp at hok
    | ok =>
    obtain ⟨v₁, hv₁⟩ : ∃ v₁, st2 (0 + f.offset) = v₁ := ⟨_, rfl⟩
    have hgo2 := apply_flat_go env fileVars envPfx (some epfx) true false 0 f
      post v₁ hfscalar hfnodep hpost_flat hpost_off pre st2 hpre_flat hpre_off
      hv₁ (by rw [happ2])
    rw [happ2] at hgo2
    simp only []
    cases hlk2 : applyLookup env fileVars envPfx (some epfx) f.name with
    | some t =>
      cases hrt : f.readFn t with
      | none =>
        exact absurd (by rw [happ2]) (apply_flat_fail env fileVars envPfx
          (some epfx) true 0 f t hfnodep hlk2 hrt (pre ++ f :: post) st2 hflat
          hfmem)
      | some nv =>
        rw [hlk2] at hgo2
        simp only [applySlotOutcome, hrt] at hgo2
        rw [happ1]
        dsimp only
        rw [happ2, c1Resolved, hlk2]
        dsimp only
        rw [hrt]
        exact hgo2
    | none =>
      rw [hlk2] at hgo2
      simp only [applySlotOutcome] at hgo2
      rw [happ1]
      dsimp only
      rw [happ2, c1Resolved, hlk2]
      dsimp only
      rw [hgo2]
      cases hlk1 : applyLookup env fileVars sp (some epfx) f.name with
      | some t =>
        cases hrt : f.readFn t with
        | none =>
          exact absurd (by rw [happ1]) (apply_flat_fail env fileVars sp
            (some epfx) true 0 f t hfnodep hlk1 hrt (pre ++ f :: post) st1
            hflat hfmem)
        | some nv =>
          rw [hlk1] at hgo1
          simp only [applySlotOutcome, hrt] at hgo1
          dsimp only
          rw [hrt]
          rw [hv₁] at hgo1
          exact hgo1
      | none =>
        rw [hlk1] at hgo1
        simp only [applySlotOutcome] at hgo1
        dsimp only
        rw [hv₁] at hgo1
        rw [hdv]
        exact hgo1

/-- C1, counterexample: with env_prefix "AB_CD_", the environment has no entry under the full prefix (AB_CD_X unset) yet fill_opts stores 7 from the sub-prefix variable CD_X rather than the default 0, so the claimed env > file > default chain (which would give 0) mispredicts the result. -/
theorem c1_precedence_counterexample :
    c1Env ("AB_CD_" ++ "" ++ "X") = none ∧
      c1Field.readFn "0" = some 0 ∧
      (ucs_config_parser_fill_opts c1Env (fun _ => none) (fun _ => 0) c1Entry
        "AB_CD_" false).status = UcsStatus.ok ∧
      (ucs_config_parser_fill_opts c1Env (fun _ => none) (fun _ => 0) c1Entry
        "AB_CD_" false).store 0 = 7 ∧
      (7 : Nat) ≠ 0 := by
  have h7 : sscanf_u "7" = some 7 := by decide
  have h0 : sscanf_u "0" = some 0 := by decide
  refine ⟨by decide, by decide, ?_, ?_, by decide⟩ <;>
    simp [ucs_config_parser_fill_opts, ucs_config_parser_set_default_values,
      ucs_config_parser_parse_field, ucs_config_apply_config_vars,
      ucs_config_parser_get_sub_pfx, subPfxScan, c1Entry, c1Field, c1Env,
      ucs_config_is_alias_field, ucs_config_is_deprecated_field,
      UCS_CONFIG_DEPRECATED_FIELD_OFFSET, h7, h0, updStore]

/-- C1 witness: the amended theorem applied to the concrete one-field table with env_prefix "PFX_". -/
theorem c1_precedence_witness :
    some ((ucs_config_parser_fill_opts c1EnvW (fun _ => none) (fun _ => 0)
        c1Entry "PFX_" false).store (0 + c1Field.offset)) =
      c1Resolved c1EnvW (fun _ => none) "PFX_"
        (ucs_config_parser_get_sub_pfx "PFX_").2 c1Entry.pfx c1Field := by
  have h5 : sscanf_u "5" = some 5 := by decide
  have h0 : sscanf_u "0" = some 0 := by decide
  exact c1_precedence_amended c1EnvW (fun _ => none) (fun _ => 0) c1Entry
    "PFX_" [] [] c1Field rfl (by decide) (by simp) (by simp) (by decide)
    (by decide)
    (by
      simp [ucs_config_parser_fill_opts, ucs_config_parser_set_default_values,
        ucs_config_parser_parse_field, ucs_config_apply_config_vars,
        ucs_config_parser_get_sub_pfx, subPfxScan, c1Entry, c1Field, c1EnvW,
        ucs_config_is_alias_field, ucs_config_is_deprecated_field,
        UCS_CONFIG_DEPRECATED_FIELD_OFFSET, h5, h0, updStore])

/-- C5: when the looked-up value of some field of a flat table fails to parse (and defaults are parsable, so earlier stages succeed), fill_opts with ignore_errors=0 returns InvalidParam after releasing opts, and with ignore_errors=1 returns OK with that field holding its parsed default. -/
theorem c5_parse_failure {V : Type} (env fileVars : String → Option String)
    (store : Store V) (entry : GlobalListEntry V) (envPfx : String)
    (pre post : List (CField V)) (f : CField V) (t : String) (dv : V)
    (hsplit : entry.table = pre ++ f :: post)
    (hflat : ∀ g ∈ entry.table, ucs_config_is_table_field g = false)
    (hpre_off : ∀ g ∈ pre, ucs_config_is_deprecated_field g = false →
      g.offset ≠ f.offset)
    (hpost_off : ∀ g ∈ post, ucs_config_is_deprecated_field g = false →
      g.offset ≠ f.offset)
    (hfnodep : ucs_config_is_deprecated_field f = false)
    (hsubok : (ucs_config_parser_get_sub_pfx envPfx).1 = UcsStatus.ok)
    (hdfls : ∀ g ∈ entry.table, ucs_config_is_deprecated_field g = false →
      (g.dflValue.bind g.readFn).isSome = true)
    (hlook : applyLookup env fileVars envPfx (some entry.pfx) f.name = some t)
    (hfail : f.readFn t = none)
    (hdv : f.dflValue.bind f.readFn = some dv) :
    ((ucs_config_parser_fill_opts env fileVars store entry envPfx false).status =
        UcsStatus.invalidParam ∧
      (ucs_config_parser_fill_opts env fileVars store entry envPfx
        false).released = true) ∧
    ((ucs_config_parser_fill_opts env fileVars store entry envPfx true).status =
        UcsStatus.ok ∧
      (ucs_config_parser_fill_opts env fileVars store entry envPfx true).store
        (0 + f.offset) = dv) := by
  obtain ⟨tbl, epfx⟩ := entry
  simp only [] at hsplit hflat hdfls hlook ⊢
  subst hsplit
  have hfmem : f ∈ pre ++ f :: post := by simp
  have hfscalar : ucs_config_is_table_field f = false := hflat f hfmem
  have hpre_flat : ∀ g ∈ pre, ucs_config_is_table_field g = false :=
    fun g hg => hflat g (by simp [hg])
  have hpost_flat : ∀ g ∈ post, ucs_config_is_table_field g = false :=
    fun g hg => hflat g (by simp [hg])
  have hdefok : ∀ st : Store V,
      (ucs_config_parser_set_default_values st 0 (pre ++ f :: post)).1 =
        UcsStatus.ok :=
    fun st => set_defaults_flat_ok 0 (pre ++ f :: post) st hflat
      (fun g hg _ h2 => hdfls g hg h2)
  have hrecover : ∀ g ∈ pre ++ f :: post,
      ucs_config_is_deprecated_field g = false →
      ∀ u, applyLookup env fileVars envPfx (some epfx) g.name = some u →
        (g.readFn u).isSome = true ∨ (g.dflValue.bind g.readFn).isSome = true :=
    fun g hg h1 u _ => Or.inr (hdfls g hg h1)
  constructor
  · -- ignore_errors = false: InvalidParam and released
    rw [ucs_config_parser_fill_opts]
    dsimp only
    rcases hdef : ucs_config_parser_set_default_values store 0
      (pre ++ f :: post) with ⟨sd, st1⟩
    have hsd : sd = UcsStatus.ok := by
      have h := hdefok store
      rw [hdef] at h
      exact h
    subst hsd
    rcases hsub : ucs_config_parser_get_sub_pfx envPfx with ⟨ss, subPfx⟩
    have hss : ss = UcsStatus.ok := by
      rw [hsub] at hsubok
      exact hsubok
    subst hss
    dsimp only
    cases subPfx with
    | none =>
      rcases happ2 : ucs_config_apply_config_vars env fileVars st1 0
          (pre ++ f :: post) envPfx (some epfx) true false with ⟨s2, st3⟩
      have hs2 : s2 = UcsStatus.invalidParam := by
        have hne := apply_flat_fail env fileVars envPfx (some epfx) true 0 f t
          hfnodep hlook hfail (pre ++ f :: post) st1 hflat hfmem
        rw [happ2] at hne
        have hst := apply_flat_status env fileVars envPfx (some epfx) true
          false 0 (pre ++ f :: post) st1 hflat
        rw [happ2] at hst
        simp at hne hst
        tauto
      subst hs2
      simp [happ2]
    | some sp =>
      rcases happ1 : ucs_config_apply_config_vars env fileVars st1 0
          (pre ++ f :: post) sp (some epfx) true false with ⟨s1, st2⟩
      have hst1 := apply_flat_status env fileVars sp (some epfx) true false 0
        (pre ++ f :: post) st1 hflat
      rw [happ1] at hst1
      simp at hst1
      rcases hst1 with h1 | h1
      · subst h1
        dsimp only
        rcases happ2 : ucs_config_apply_config_vars env fileVars st2 0
            (pre ++ f :: post) envPfx (some epfx) true false with ⟨s2, st3⟩
        have hs2 : s2 = UcsStatus.invalidParam := by
          have hne := apply_flat_fail env fileVars envPfx (some epfx) true 0 f
            t hfnodep hlook hfail (pre ++ f :: post) st2 hflat hfmem
          rw [happ2] at hne
          have hst := apply_flat_status env fileVars envPfx (some epfx) true
            false 0 (pre ++ f :: post) st2 hflat
          rw [happ2] at hst
          simp at hne hst
          tauto
        subst hs2
        simp [happ1, happ2]
      · subst h1
        simp [happ1]
  · -- ignore_errors = true: OK, offending field holds the default value
    rw [ucs_config_parser_fill_opts]
    dsimp only
    rcases hdef : ucs_config_parser_set_default_values store 0
      (pre ++ f :: post) with ⟨sd, st1⟩
    have hsd : sd = UcsStatus.ok := by
      have h := hdefok store
      rw [hdef] at h
      exact h
    subst hsd
    rcases hsub : ucs_config_parser_get_sub_pfx envPfx with ⟨ss, subPfx⟩
    have hss : ss = UcsStatus.ok := by
      rw [hsub] at hsubok
      exact hsubok
    subst hss
    dsimp only
    have hpass2 : ∀ st : Store V,
        (ucs_config_apply_config_vars env fileVars st 0 (pre ++ f :: post)
          envPfx (some epfx) true true).1 = UcsStatus.ok :=
      fun st => apply_flat_ok env fileVars envPfx (some epfx) true 0
        (pre ++ f :: post) st hflat hrecover
    have hslot : ∀ st : Store V,
        some ((ucs_config_apply_config_vars env fileVars st 0
            (pre ++ f :: post) envPfx (some epfx) true true).2
          (0 + f.offset)) = some dv := by
      intro st
      have hgo := apply_flat_go env fileVars envPfx (some epfx) true true 0 f
        post (st (0 + f.offset)) hfscalar hfnodep hpost_flat hpost_off pre st
        hpre_flat hpre_off rfl (hpass2 st)
      rw [hgo, hlook]
      simp only [applySlotOutcome]
      rw [hfail]
      dsimp only
      exact hdv
    cases subPfx with
    | none =>
      rcases happ2 : ucs_config_apply_config_vars env fileVars st1 0
          (pre ++ f :: post) envPfx (some epfx) true true with ⟨s2, st3⟩
      have hs2 : s2 = UcsStatus.ok := by
        have h := hpass2 st1
        rw [happ2] at h
        exact h
      subst hs2
      have h := hslot st1
      rw [happ2] at h
      simp at h
      simp [happ2, h]
    | some sp =>
      rcases happ1 : ucs_config_apply_config_vars env fileVars st1 0
          (pre ++ f :: post) sp (some epfx) true true with ⟨s1, st2⟩
      have hpass1 : s1 = UcsStatus.ok := by
        have h := apply_flat_ok env fileVars sp (some epfx) true 0
          (pre ++ f :: post) st1 hflat
          (fun g hg h1 u _ => Or.inr (hdfls g hg h1))
        rw [happ1] at h
        exact h
      subst hpass1
      dsimp only
      rcases happ2 : ucs_config_apply_config_vars env fileVars st2 0
          (pre ++ f :: post) envPfx (some epfx) true true with ⟨s2, st3⟩
      have hs2 : s2 = UcsStatus.ok := by
        have h := hpass2 st2
        rw [happ2] at h
        exact h
      subst hs2
      have h := hslot st2
      rw [happ2] at h
      simp at h
      simp [happ1, happ2, h]

/-- C5 witness: the theorem applied to the concrete one-field table, env_prefix "PFX_", env value "banana". -/
theorem c5_parse_failure_witness :
    ((ucs_config_parser_fill_opts c5Env (fun _ => none) (fun _ => 0) c5Entry
        "PFX_" false).status = UcsStatus.invalidParam ∧
      (ucs_config_parser_fill_opts c5Env (fun _ => none) (fun _ => 0) c5Entry
        "PFX_" false).released = true) ∧
    ((ucs_config_parser_fill_opts c5Env (fun _ => none) (fun _ => 0) c5Entry
        "PFX_" true).status = UcsStatus.ok ∧
      (ucs_config_parser_fill_opts c5Env (fun _ => none) (fun _ => 0) c5Entry
        "PFX_" true).store (0 + c5Field.offset) = 0) := by
  exact c5_parse_failure c5Env (fun _ => none) (fun _ => 0) c5Entry "PFX_"
    [] [] c5Field "banana" 0 rfl (by decide) (by simp) (by simp) (by decide)
    (by decide) (by decide) (by decide) (by decide) (by decide)
end UcxConfig

